import Mathlib

/-!
Verification of the iocage Ansible module
(`lib/ansible/modules/system/iocage.py`): a declarative lifecycle
reconciler for FreeBSD jails.  The Python source is shallowly embedded:

* Python strings are `Str := List Char`; `str.split(sep)`,
  `str.splitlines()` and `str.strip()` are re-implemented with their
  exact Python semantics (`splitCh`, `pySplitlines`, `pyStrip`).
* The external `iocage` binary is modelled by `manager`, a pure
  transition function on `World` that answers the argument vectors the
  module builds (spec section 6 documents this command boundary).
* Each method of class `IOCage` and the `run_module` reconciler are
  translated into a state monad `M` that threads the `World`, records
  the list of executed argument vectors, and propagates Python
  exceptions (`PyErr`) without rolling back state.
-/

namespace Iocage

/-- Python strings, embedded as lists of characters. -/
abbrev Str := List Char

/-- Shorthand turning a Lean string literal into an embedded Python string. -/
def str (s : String) : Str := s.data

/-- Python truthiness of a string (an `Optional[str]` that is `None` or the
empty string is falsy; the embedding conflates `None` with `""`). -/
def truthy (s : Str) : Bool := !s.isEmpty

/-- Characters Python's `str.strip()` removes. -/
def pyIsSpace (c : Char) : Bool :=
  c = ' ' || c = '\t' || c = '\n' || c = '\r' || c = Char.ofNat 11 || c = Char.ofNat 12

/-- Python `str.strip()`. -/
def pyStrip (s : Str) : Str :=
  ((s.dropWhile pyIsSpace).reverse.dropWhile pyIsSpace).reverse

/-- Python `str.split(sep)` for a one-character separator: `"".split(sep)`
is `[""]`, and the result always has one more part than there are
separator occurrences. -/
def splitCh (sep : Char) : Str → List Str
  | [] => [[]]
  | c :: cs =>
    match splitCh sep cs with
    | [] => [[]]
    | h :: t => if c = sep then [] :: h :: t else (c :: h) :: t

/-- Python `str.splitlines()` for newline-delimited text: the empty string
has no lines and a trailing newline does not produce an extra empty line. -/
def pySplitlines : Str → List Str
  | [] => []
  | c :: cs =>
    if c = '\n' then [] :: pySplitlines cs
    else
      match pySplitlines cs with
      | [] => [[c]]
      | h :: t => (c :: h) :: t

/-- Join lines with a newline separator (inverse of `pySplitlines` on
newline-free, nonempty lines); this is how the modelled manager renders
multi-line output. -/
def joinLines : List Str → Str
  | [] => []
  | [l] => l
  | l :: ls => l ++ '\n' :: joinLines ls

/-- Split at the first occurrence of a separator, returning the part
before it and the part after it (the whole string and `[]` when the
separator does not occur). -/
def splitFirstOn (sep : Char) : Str → Str × Str
  | [] => ([], [])
  | c :: cs =>
    if c = sep then ([], cs)
    else
      let p := splitFirstOn sep cs
      (c :: p.1, p.2)

theorem splitCh_ne_nil (sep : Char) (s : Str) : splitCh sep s ≠ [] := by
  cases s with
  | nil => simp [splitCh]
  | cons c cs =>
    unfold splitCh
    cases h : splitCh sep cs with
    | nil => simp
    | cons h t => by_cases hc : c = sep <;> simp [hc]

theorem splitCh_of_not_mem {sep : Char} {s : Str} (h : sep ∉ s) :
    splitCh sep s = [s] := by
  induction s with
  | nil => rfl
  | cons c cs ih =>
    have hc : c ≠ sep := fun hceq => h (hceq ▸ List.mem_cons_self c cs)
    have hcs : sep ∉ cs := fun hmem => h (List.mem_cons_of_mem c hmem)
    unfold splitCh
    rw [ih hcs]
    simp [hc]

theorem splitCh_append {sep : Char} {a : Str} (b : Str) (h : sep ∉ a) :
    splitCh sep (a ++ sep :: b) = a :: splitCh sep b := by
  induction a with
  | nil =>
    show splitCh sep (sep :: b) = [] :: splitCh sep b
    cases hb : splitCh sep b with
    | nil => exact absurd hb (splitCh_ne_nil sep b)
    | cons x t => simp [splitCh, hb]
  | cons c cs ih =>
    have hc : c ≠ sep := fun hceq => h (hceq ▸ List.mem_cons_self c cs)
    have hcs : sep ∉ cs := fun hmem => h (List.mem_cons_of_mem c hmem)
    show splitCh sep (c :: (cs ++ sep :: b)) = _
    simp only [splitCh, ih hcs]
    simp [hc]

theorem pySplitlines_of_not_mem {a : Str} (h : '\n' ∉ a) (hne : a ≠ []) :
    pySplitlines a = [a] := by
  induction a with
  | nil => exact absurd rfl hne
  | cons c cs ih =>
    have hc : c ≠ '\n' := fun hceq => h (hceq ▸ List.mem_cons_self c cs)
    have hcs : '\n' ∉ cs := fun hmem => h (List.mem_cons_of_mem c hmem)
    show pySplitlines (c :: cs) = [c :: cs]
    by_cases hnil : cs = []
    · subst hnil; simp [pySplitlines, hc]
    · have hrec := ih hcs hnil
      have hstep : pySplitlines (c :: cs) =
          match pySplitlines cs with
          | [] => [[c]]
          | h :: t => (c :: h) :: t := by
        simp only [pySplitlines, if_neg hc]
      rw [hstep, hrec]

theorem pySplitlines_append_newline {a : Str} (b : Str) (h : '\n' ∉ a) :
    pySplitlines (a ++ '\n' :: b) = a :: pySplitlines b := by
  induction a with
  | nil =>
    show pySplitlines ('\n' :: b) = [] :: pySplitlines b
    simp [pySplitlines]
  | cons c cs ih =>
    have hc : c ≠ '\n' := fun hceq => h (hceq ▸ List.mem_cons_self c cs)
    have hcs : '\n' ∉ cs := fun hmem => h (List.mem_cons_of_mem c hmem)
    show pySplitlines (c :: (cs ++ '\n' :: b)) = _
    simp only [pySplitlines, if_neg hc, ih hcs]

theorem pySplitlines_joinLines {ls : List Str}
    (h : ∀ l ∈ ls, '\n' ∉ l ∧ l ≠ []) :
    pySplitlines (joinLines ls) = ls := by
  induction ls with
  | nil => rfl
  | cons l ls ih =>
    cases ls with
    | nil =>
      obtain ⟨hnl, hne⟩ := h l (List.mem_cons_self l [])
      exact pySplitlines_of_not_mem hnl hne
    | cons l2 ls2 =>
      obtain ⟨hnl, _⟩ := h l (List.mem_cons_self l _)
      have hrest : ∀ x ∈ l2 :: ls2, '\n' ∉ x ∧ x ≠ [] :=
        fun x hx => h x (List.mem_cons_of_mem l hx)
      show pySplitlines (l ++ '\n' :: joinLines (l2 :: ls2)) = _
      rw [pySplitlines_append_newline _ hnl, ih hrest]

theorem mem_dropWhile_of_mem {p : Char → Bool} {s : Str} {c : Char}
    (hmem : c ∈ s) (hc : p c = false) : c ∈ s.dropWhile p := by
  induction s with
  | nil => cases hmem
  | cons x xs ih =>
    rw [List.dropWhile_cons]
    by_cases hx : p x = true
    · simp only [hx, if_true]
      rcases List.mem_cons.mp hmem with rfl | hmem2
      · rw [hx] at hc; cases hc
      · exact ih hmem2
    · simp only [hx, if_false]
      exact hmem

theorem mem_pyStrip_of_mem {s : Str} {c : Char}
    (hmem : c ∈ s) (hc : pyIsSpace c = false) : c ∈ pyStrip s := by
  unfold pyStrip
  rw [List.mem_reverse]
  apply mem_dropWhile_of_mem _ hc
  rw [List.mem_reverse]
  exact mem_dropWhile_of_mem hmem hc

/-- Python exceptions the embedded code can raise. -/
inductive PyErr
  | indexError
  | stopIteration
  | attributeError
deriving DecidableEq, Repr

/-- One parsed row of `iocage list -Hl` output (the dict built by
`IOCage._parse_list_output` for one line). -/
structure Row where
  jailid : Str
  name : Str
  boot : Str
  state : Str
  type : Str
  release : Str
  ipv4 : Str
  ipv6 : Str
  template : Str
  basejail : Str
deriving DecidableEq, Repr

/-- Translation of one loop iteration of `IOCage._parse_list_output`
(lines 378-391): split the line on tabs, raise `StopIteration` when the
split yields no items (unreachable, since Python's `split` always yields
at least one item), then index items 0..9 — Python raises `IndexError`
as soon as an index is out of range, i.e. whenever there are fewer than
10 fields. -/
def parseLine (line : Str) : Except PyErr Row :=
  let items := splitCh '\t' line
  if items.length = 0 then .error .stopIteration
  else if items.length < 10 then .error .indexError
  else .ok { jailid := items.getD 0 [], name := items.getD 1 [],
             boot := items.getD 2 [], state := items.getD 3 [],
             type := items.getD 4 [], release := items.getD 5 [],
             ipv4 := items.getD 6 [], ipv6 := items.getD 7 [],
             template := items.getD 8 [], basejail := items.getD 9 [] }

/-- Translation of `IOCage._parse_list_output` (lines 370-392): parse
each line of stdout in order, the first raising line aborting the whole
parse with its exception. -/
def parse_list_output (stdout : Str) : Except PyErr (List Row) :=
  go (pySplitlines stdout)
where
  go : List Str → Except PyErr (List Row)
    | [] => .ok []
    | l :: ls =>
      match parseLine l with
      | .error e => .error e
      | .ok r =>
        match go ls with
        | .error e => .error e
        | .ok rs => .ok (r :: rs)

/-- Association-list update with Python dict assignment semantics:
overwrite the first binding of the key in place, else append. -/
def setAssoc (l : List (Str × Str)) (k v : Str) : List (Str × Str) :=
  if l.any (fun p => decide (p.1 = k)) then
    l.map (fun p => if p.1 = k then (k, v) else p)
  else l ++ [(k, v)]

/-- Association-list lookup (Python dict read). -/
def lookupAssoc (l : List (Str × Str)) (k : Str) : Option Str :=
  (l.find? (fun p => decide (p.1 = k))).map Prod.snd

/-- Translation of `IOCage._add_line_to_properties` (lines 394-402):
split the line on every colon and store `items[1]` — the segment between
the first and second colons — under `items[0]`; a line with no colon
makes `items[1]` raise `IndexError`. -/
def add_line_to_properties (properties : List (Str × Str)) (line : Str) :
    Except PyErr (List (Str × Str)) :=
  match splitCh ':' line with
  | k :: v :: _ => .ok (setAssoc properties k v)
  | _ => .error .indexError

/-- Translation of class `Jail` (lines 184-195): the desired-state record. -/
structure Jail where
  name : Str
  uuid : Str
  release : Str
  template : Str
  empty : Bool
  state : Str
  properties : Option (List (Str × Str))
deriving DecidableEq, Repr

/-- Caller-supplied module parameters (the validated `module.params`). -/
structure Params where
  zpool : Str
  name : Str
  uuid : Str
  release : Str
  template : Str
  empty : Bool
  state : Str
  properties : Option (List (Str × Str))
deriving DecidableEq, Repr

/-- One jail as the external manager knows it: the ten columns it prints
in `list -Hl` output plus its property store. -/
structure JailRec where
  jailid : Str
  name : Str
  boot : Str
  state : Str
  type : Str
  release : Str
  ipv4 : Str
  ipv6 : Str
  template : Str
  basejail : Str
  props : List (Str × Str)
deriving DecidableEq, Repr

/-- State of the external iocage manager: the active pool and the jails
it hosts.  `createSetsProps` selects whether `create` applies the
`prop=value` creation arguments (real iocage does; keeping it a
parameter lets the theorems cover managers that do not, exercising the
post-create property-set path). -/
structure World where
  activePool : Str
  jails : List JailRec
  createSetsProps : Bool
deriving DecidableEq, Repr

/-- The listing row the manager prints for one jail. -/
def renderRow (j : JailRec) : Str :=
  j.jailid ++ '\t' :: (j.name ++ '\t' :: (j.boot ++ '\t' :: (j.state ++ '\t' ::
  (j.type ++ '\t' :: (j.release ++ '\t' :: (j.ipv4 ++ '\t' :: (j.ipv6 ++ '\t' ::
  (j.template ++ '\t' :: j.basejail))))))))

/-- Tab-delimited `list -Hl` output for a set of jails. -/
def renderListing (jails : List JailRec) : Str :=
  joinLines (jails.map renderRow)

/-- The `get all` output for one jail: one `name:value` line per property. -/
def renderProps (props : List (Str × Str)) : Str :=
  joinLines (props.map (fun kv => kv.1 ++ ':' :: kv.2))

def findJail (jails : List JailRec) (n : Str) : Option JailRec :=
  jails.find? (fun j => decide (j.name = n))

/-- Stdout of `iocage get <prop> <target>`: the stored value, empty when
the jail or property is unknown. -/
def getPropOut (w : World) (k n : Str) : Str :=
  match findJail w.jails n with
  | none => []
  | some j => (lookupAssoc j.props k).getD []

def jailPropsOf (w : World) (n : Str) : List (Str × Str) :=
  match findJail w.jails n with
  | none => []
  | some j => j.props

def updateJailState (jails : List JailRec) (n st : Str) : List JailRec :=
  jails.map fun j => if j.name = n then { j with state := st } else j

def setJailProp (jails : List JailRec) (n k v : Str) : List JailRec :=
  jails.map fun j => if j.name = n then { j with props := setAssoc j.props k v } else j

/-- Scan an argument vector for a flag and return the following argument. -/
def argAfter (flag : Str) : List Str → Option Str
  | [] => none
  | [_] => none
  | x :: y :: rest => if x = flag then some y else argAfter flag (y :: rest)

/-- A `prop=value` creation argument, split at its first `=`. -/
def kvArg (a : Str) : Option (Str × Str) :=
  if '=' ∈ a then some (splitFirstOn '=' a) else none

/-- The jail the manager creates from `create` arguments: it starts
stopped, named by `-n`, based on the `-r` release, with the `prop=value`
arguments applied when the manager is configured to do so. -/
def createdJail (apply : Bool) (args : List Str) : JailRec :=
  { jailid := str "-", name := (argAfter (str "-n") args).getD [],
    boot := str "off", state := str "down", type := str "jail",
    release := (argAfter (str "-r") args).getD [], ipv4 := str "-",
    ipv6 := str "-", template := str "-", basejail := str "-",
    props := if apply then args.filterMap kvArg else [] }

/-- The external container manager (spec section 6): a pure transition
function answering each argument vector the module can build with its
stdout and the successor state.  Unknown vectors are no-ops. -/
def manager (w : World) (cmd : List Str) : Str × World :=
  match cmd with
  | _ :: a :: rest =>
    if a = str "create" then
      ([], { w with jails := w.jails ++ [createdJail w.createSetsProps rest] })
    else
      match rest with
      | [b] =>
        if a = str "get" ∧ b = str "-p" then (w.activePool, w)
        else if a = str "list" ∧ b = str "-Hl" then (renderListing w.jails, w)
        else if a = str "activate" then ([], { w with activePool := b })
        else if a = str "start" then
          ([], { w with jails := updateJailState w.jails b (str "up") })
        else ([], w)
      | [b, c] =>
        if a = str "get" ∧ b = str "all" then (renderProps (jailPropsOf w c), w)
        else if a = str "get" then (getPropOut w b c, w)
        else if a = str "stop" ∧ b = str "-f" then
          ([], { w with jails := updateJailState w.jails c (str "down") })
        else if a = str "destroy" ∧ b = str "-f" then
          ([], { w with jails := w.jails.filter (fun j => decide (j.name ≠ c)) })
        else if a = str "set" then
          ([], { w with jails := setJailProp w.jails c (splitFirstOn '=' b).1 (splitFirstOn '=' b).2 })
        else ([], w)
      | _ => ([], w)
  | _ => ([], w)

/-- Execution state threaded through the module: the manager's state and
the argument vectors executed so far, in order. -/
structure St where
  world : World
  trace : List (List Str)
deriving DecidableEq, Repr

/-- The module's effect monad: state threading plus Python exceptions.
An exception does not roll back state (commands already run stay run). -/
def M (α : Type) := St → Except PyErr α × St

def mpure {α : Type} (a : α) : M α := fun s => (.ok a, s)

def mbind {α β : Type} (x : M α) (f : α → M β) : M β := fun s =>
  match x s with
  | (.error e, s') => (.error e, s')
  | (.ok a, s') => f a s'

instance : Monad M where
  pure := mpure
  bind := mbind

/-- Raise a Python exception. -/
def mthrow {α : Type} (e : PyErr) : M α := fun s => (.error e, s)

/-- Translation of `module.run_command(command, check_rc=True)`: execute
one external command and record it.  The modelled manager always exits 0,
so `check_rc` never fires inside the scenarios considered here. -/
def runCmd (cmd : List Str) : M Str := fun s =>
  (.ok (manager s.world cmd).1, ⟨(manager s.world cmd).2, s.trace ++ [cmd]⟩)

/-- The shared class-level command prefix `IOCage.IOCAGE` (line 199). -/
def IOCAGE : List Str := [str "iocage"]

/-- Translation of `IOCage.get_activated_zpool` (lines 215-222). -/
def get_activated_zpool : M Str := do
  let stdout ← runCmd (IOCAGE ++ [str "get", str "-p"])
  pure (pyStrip stdout)

/-- Translation of `IOCage.is_activated` (lines 206-213). -/
def is_activated (zpool : Str) : M Bool := do
  let stdout ← get_activated_zpool
  pure (decide (stdout = zpool))

/-- Translation of `IOCage.activate` (lines 224-230). -/
def activate (zpool : Str) : M Unit := do
  let _ ← runCmd (IOCAGE ++ [str "activate", zpool])
  pure ()

/-- The `name if name else uuid` idiom the source uses to address a jail
in `destroy`, `start`, `stop`, `has_changed_properties`,
`set_properties` and `get_properties`. -/
def identOf (jail : Jail) : Str := if truthy jail.name then jail.name else jail.uuid

/-- Translation of `IOCage.exists` (lines 232-246); note the Python
conditional `line.get('name') == jail.name if jail.name else jail.uuid`
parses as `(line.get('name') == jail.name) if jail.name else jail.uuid`,
and only `StopIteration` is converted to `False` — any other exception
escapes. -/
def exists_ (jail : Jail) : M Bool := do
  let stdout ← runCmd (IOCAGE ++ [str "list", str "-Hl"])
  match parse_list_output stdout with
  | .error .stopIteration => pure false
  | .error e => mthrow e
  | .ok output =>
    pure (output.any fun line =>
      if truthy jail.name then decide (line.name = jail.name) else truthy jail.uuid)

/-- Translation of `IOCage.is_started` (lines 282-294); unlike `exists`,
no exception is caught here. -/
def is_started (jail : Jail) : M Bool := do
  let stdout ← runCmd (IOCAGE ++ [str "list", str "-Hl"])
  match parse_list_output stdout with
  | .error e => mthrow e
  | .ok output =>
    pure (output.any fun line =>
      decide (line.name = jail.name) && decide (line.state = str "up"))

/-- The argument vector `IOCage.create` builds (lines 252-269). -/
def createCmd (jail : Jail) : List Str :=
  IOCAGE ++ [str "create"]
  ++ (if truthy jail.name then [str "-n", jail.name] else [])
  ++ (if truthy jail.uuid then [str "-u", jail.uuid] else [])
  ++ (if truthy jail.release then [str "-r", jail.release]
      else if truthy jail.template then [str "-t", jail.template]
      else if jail.empty then [str "-e"] else [])
  ++ (match jail.properties with
      | none => []
      | some ps => ps.filterMap fun kv =>
          if truthy kv.1 && truthy kv.2 then some (kv.1 ++ '=' :: kv.2) else none)

/-- Translation of `IOCage.create` (lines 248-271). -/
def create (jail : Jail) : M Unit := do
  let _ ← runCmd (createCmd jail)
  pure ()

/-- Translation of `IOCage.destroy` (lines 273-280). -/
def destroy (jail : Jail) : M Unit := do
  let _ ← runCmd (IOCAGE ++ [str "destroy", str "-f", identOf jail])
  pure ()

/-- Translation of `IOCage.start` (lines 296-303). -/
def start (jail : Jail) : M Unit := do
  let _ ← runCmd (IOCAGE ++ [str "start", identOf jail])
  pure ()

/-- Translation of `IOCage.stop` (lines 305-312). -/
def stop (jail : Jail) : M Unit := do
  let _ ← runCmd (IOCAGE ++ [str "stop", str "-f", identOf jail])
  pure ()

/-- Loop body of `IOCage.has_changed_properties` (lines 321-328):
falsy keys or values are skipped, and the first property whose fetched
current value differs from the desired one returns `True` immediately. -/
def hasChangedLoop (jail : Jail) : List (Str × Str) → M Bool
  | [] => mpure false
  | (k, v) :: rest => do
    if truthy k && truthy v then
      let stdout ← runCmd (IOCAGE ++ [str "get", k, identOf jail])
      if pyStrip stdout ≠ v then mpure true else hasChangedLoop jail rest
    else hasChangedLoop jail rest

/-- Translation of `IOCage.has_changed_properties` (lines 314-329). -/
def has_changed_properties (jail : Jail) : M Bool :=
  match jail.properties with
  | none => mpure false
  | some ps => hasChangedLoop jail ps

/-- Loop body of `IOCage.set_properties` (lines 359-368): for each
truthy key/value pair fetch the current value (addressing the jail by
`jail.name`) and, when it differs, issue a `set` (addressing the jail by
`name if name else uuid`). -/
def setPropsLoop (jail : Jail) : List (Str × Str) → M Unit
  | [] => mpure ()
  | (k, v) :: rest => do
    if truthy k && truthy v then
      let stdout ← runCmd (IOCAGE ++ [str "get", k, jail.name])
      if pyStrip stdout ≠ v then do
        let _ ← runCmd (IOCAGE ++ [str "set", k ++ '=' :: v, identOf jail])
        setPropsLoop jail rest
      else setPropsLoop jail rest
    else setPropsLoop jail rest

/-- Translation of `IOCage.set_properties` (lines 355-368); iterating a
`None` properties attribute raises `AttributeError`. -/
def set_properties (jail : Jail) : M Unit :=
  match jail.properties with
  | none => mthrow .attributeError
  | some ps => setPropsLoop jail ps

/-- Bulk branch of `IOCage.get_properties`: parse every line of
`get all` output, stripped, into the properties dict. -/
def propsLoopLines (acc : List (Str × Str)) : List Str → M (List (Str × Str))
  | [] => mpure acc
  | l :: ls =>
    match add_line_to_properties acc (pyStrip l) with
    | .error e => mthrow e
    | .ok acc' => propsLoopLines acc' ls

/-- Per-property branch of `IOCage.get_properties` (lines 347-352):
the source builds `pcommand` but then runs the unextended base command
`command` (a bug left intact here), and parses its stripped stdout. -/
def propsLoopEach (acc : List (Str × Str)) : List Str → M (List (Str × Str))
  | [] => mpure acc
  | _ :: ps => do
    let stdout ← runCmd IOCAGE
    match add_line_to_properties acc (pyStrip stdout) with
    | .error e => mthrow e
    | .ok acc' => propsLoopEach acc' ps

/-- Translation of `IOCage.get_properties` (lines 331-353). -/
def get_properties (jail : Jail) (properties_to_get : Option (List Str)) :
    M (List (Str × Str)) := do
  if properties_to_get.isNone || (properties_to_get.getD []).length = 0
      || ((properties_to_get.getD []).length = 1
          && decide ((properties_to_get.getD []).headI = str "all")) then
    let stdout ← runCmd (IOCAGE ++ [str "get", str "all", identOf jail])
    propsLoopLines [] (pySplitlines stdout)
  else
    propsLoopEach [] (properties_to_get.getD [])

/-- The returned attributes `run_module` adds via `result.update`
(lines 472-478) when the jail still exists at the end. -/
structure FinalAttrs where
  name : Str
  uuid : Str
  zpool : Str
  release : Str
  state : Str
  properties : List (Str × Str)
deriving DecidableEq, Repr

/-- The mutable result record: `changed` flag, human-readable change
log, and the final attributes when set. -/
structure ResultR where
  changed : Bool
  message : Str
  attrs : Option FinalAttrs
deriving DecidableEq, Repr

/-- Message concatenation used after every action (e.g. lines 411-412):
append with `", "` unless the log is still empty. -/
def addMessage (result : ResultR) (message : Str) : ResultR :=
  let m := if truthy result.message then result.message ++ str ", " ++ message else message
  { result with message := m }

/-- Apostrophe character, kept out of string literals. -/
def apos : Str := [Char.ofNat 39]

def msgActivated (zpool : Str) : Str := str "ZPool " ++ zpool ++ str " activated"

def msgCreated (n : Str) : Str := str "Jail " ++ apos ++ n ++ apos ++ str " created"

def msgStarted (n : Str) : Str := str "Jail " ++ apos ++ n ++ apos ++ str " started"

def msgStopped (n : Str) : Str := str "Jail " ++ apos ++ n ++ apos ++ str " stopped"

def msgDestroyed (n : Str) : Str := str "Jail " ++ apos ++ n ++ apos ++ str " destroyed"

/-- The `Jail` record `run_module` builds from the module parameters
(lines 415-421); the surrounding `try/except ValueError` is dead since
the constructor only assigns attributes. -/
def mkJail (p : Params) : Jail :=
  { name := p.name, uuid := p.uuid, release := p.release, template := p.template,
    empty := p.empty, state := p.state, properties := p.properties }

/-- Lines 406-412 of `run_module`: when a zpool is given and not the
active one, activate it and record the change.  `is_activated` is only
queried when the parameter is truthy (Python short-circuit). -/
def zpool_block (zpool : Str) (result : ResultR) : M ResultR := do
  if truthy zpool then
    let act ← is_activated zpool
    if !act then do
      activate zpool
      pure (addMessage { result with changed := true } (msgActivated zpool))
    else pure result
  else pure result

/-- Lines 425-430: create the jail when a `present` or `started` desired
state finds it absent; `exists` is only queried for those two states. -/
def create_block (jail : Jail) (result : ResultR) : M ResultR := do
  let doCreate ← (if jail.state = str "present" || jail.state = str "started" then do
      let e ← exists_ jail
      pure (!e)
    else pure false)
  if doCreate then do
    create jail
    pure (addMessage { result with changed := true } (msgCreated jail.name))
  else pure result

/-- Lines 432-439: start a `started` jail that is not running, setting
drifted properties first. -/
def started_block (jail : Jail) (result : ResultR) : M ResultR := do
  let go ← (if jail.state = str "started" then do
      let s ← is_started jail
      pure (!s)
    else pure false)
  if go then do
    let hc ← has_changed_properties jail
    if hc then set_properties jail else pure ()
    start jail
    pure (addMessage { result with changed := true } (msgStarted jail.name))
  else pure result

/-- Lines 441-448: a `started` jail that is running with drifted
properties is stopped, reconfigured, and started again, in that order. -/
def restart_block (jail : Jail) (result : ResultR) : M ResultR := do
  let go ← (if jail.state = str "started" then do
      let s ← is_started jail
      if s then has_changed_properties jail else pure false
    else pure false)
  if go then do
    stop jail
    set_properties jail
    start jail
    pure (addMessage { result with changed := true } (msgStarted jail.name))
  else pure result

/-- Lines 450-457: a `present` jail that is running is stopped, then any
drifted properties are set. -/
def present_block (jail : Jail) (result : ResultR) : M ResultR := do
  let go ← (if jail.state = str "present" then is_started jail else pure false)
  if go then do
    stop jail
    let hc ← has_changed_properties jail
    if hc then set_properties jail else pure ()
    pure (addMessage { result with changed := true } (msgStopped jail.name))
  else pure result

/-- Lines 459-470: an `absent` jail that exists is stopped first when
running, then destroyed. -/
def absent_block (jail : Jail) (result : ResultR) : M ResultR := do
  let go ← (if jail.state = str "absent" then exists_ jail else pure false)
  if go then do
    let r1 ← (do
      let s ← is_started jail
      if s then do
        stop jail
        pure (addMessage { result with changed := true } (msgStopped jail.name))
      else pure result)
    destroy jail
    pure (addMessage { r1 with changed := true } (msgDestroyed jail.name))
  else pure result

/-- Lines 472-478: when the jail still exists, re-query the active pool
and all properties and attach the final attributes to the result. -/
def final_block (jail : Jail) (result : ResultR) : M ResultR := do
  let e ← exists_ jail
  if e then do
    let zp ← get_activated_zpool
    let props ← get_properties jail none
    let a : FinalAttrs := { name := jail.name, uuid := jail.uuid, zpool := zp,
                            release := jail.release, state := jail.state, properties := props }
    pure { result with attrs := some a }
  else pure result

/-- The per-jail part of `run_module` (lines 425-480): the guarded
reconciliation blocks, run after the zpool step. -/
def reconcile_blocks (jail : Jail) (r1 : ResultR) : M ResultR := do
  let r2 ← create_block jail r1
  let r3 ← started_block jail r2
  let r4 ← restart_block jail r3
  let r5 ← present_block jail r4
  let r6 ← absent_block jail r5
  final_block jail r6

/-- Translation of `run_module` (lines 405-480): the reconciliation
engine, as the sequence of its guarded blocks. -/
def run_module (p : Params) (result0 : ResultR) : M ResultR := do
  let r1 ← zpool_block p.zpool result0
  reconcile_blocks (mkJail p) r1

/-- Modelled from the spec: the host framework's parameter validation of
`required_one_of=[["release", "template", "empty"]]` together with
`mutually_exclusive=[["release", "template", "empty"]]` (lines 586-603)
lives in `ansible.module_utils.basic.AnsibleModule`, which is part of
this repository but not under `src/`; per the spec it accepts a
parameter set exactly when exactly one of the three provisioning
sources is set. -/
def exactlyOneProvision (p : Params) : Bool :=
  ((if truthy p.release then 1 else 0) + (if truthy p.template then 1 else 0)
    + (if p.empty then 1 else 0) : Nat) = 1

/-- Outcome of one module invocation as seen by the caller. -/
inductive Outcome
  | validationError
  | checkModeExit (r : ResultR)
  | finished (r : ResultR)
  | raised (e : PyErr)
deriving DecidableEq, Repr

/-- Translation of `main` (lines 483-613): `AnsibleModule` construction
validates the parameters before anything runs (its rejection surfaced as
`validationError`, modelled from the spec), check mode returns the
initial `changed=False` result untouched (lines 605-609), and otherwise
`run_module` runs with that initial result. -/
def main_model (p : Params) (checkMode : Bool) (w : World) :
    Outcome × World × List (List Str) :=
  if !exactlyOneProvision p then (.validationError, w, [])
  else if checkMode then
    (.checkModeExit { changed := false, message := [], attrs := none }, w, [])
  else
    match run_module p { changed := false, message := [], attrs := none } ⟨w, []⟩ with
    | (.ok r, s) => (.finished r, s.world, s.trace)
    | (.error e, s) => (.raised e, s.world, s.trace)

/-! Evaluation toolkit: small step lemmas that let the monadic
translations be executed symbolically inside proofs. -/

theorem pure_apply {α : Type} (a : α) (s : St) : (pure a : M α) s = (.ok a, s) := rfl

theorem mpure_apply {α : Type} (a : α) (s : St) : (mpure a : M α) s = (.ok a, s) := rfl

theorem mthrow_apply {α : Type} (e : PyErr) (s : St) : (mthrow e : M α) s = (.error e, s) := rfl

theorem runCmd_bind {α : Type} (c : List Str) (f : Str → M α) (s : St) :
    (runCmd c >>= f) s =
      f (manager s.world c).1 ⟨(manager s.world c).2, s.trace ++ [c]⟩ := rfl

theorem bind_step {α β : Type} {x : M α} {s s' : St} {a : α} (f : α → M β)
    (hx : x s = (.ok a, s')) : (x >>= f) s = f a s' := by
  show mbind x f s = f a s'
  unfold mbind
  rw [hx]

theorem bind_error {α β : Type} {x : M α} {s s' : St} {e : PyErr} (f : α → M β)
    (hx : x s = (.error e, s')) : (x >>= f) s = (.error e, s') := by
  show mbind x f s = (.error e, s')
  unfold mbind
  rw [hx]

theorem bind_apply {α β : Type} (x : M α) (f : α → M β) (s : St) :
    (x >>= f) s =
      (match x s with
        | (.error e, s') => (.error e, s')
        | (.ok a, s') => f a s') := rfl

/-- Command vectors the module issues, named for use in trace statements. -/
def listCmd : List Str := [str "iocage", str "list", str "-Hl"]

def getPoolCmd : List Str := [str "iocage", str "get", str "-p"]

def activateCmd (z : Str) : List Str := [str "iocage", str "activate", z]

def startCmd (n : Str) : List Str := [str "iocage", str "start", n]

def stopCmd (n : Str) : List Str := [str "iocage", str "stop", str "-f", n]

def destroyCmd (n : Str) : List Str := [str "iocage", str "destroy", str "-f", n]

def getCmd (k n : Str) : List Str := [str "iocage", str "get", k, n]

def getAllCmd (n : Str) : List Str := [str "iocage", str "get", str "all", n]

def setCmd (k v n : Str) : List Str := [str "iocage", str "set", k ++ '=' :: v, n]

theorem manager_list (w : World) :
    manager w (IOCAGE ++ [str "list", str "-Hl"]) = (renderListing w.jails, w) := rfl

theorem manager_getPool (w : World) :
    manager w (IOCAGE ++ [str "get", str "-p"]) = (w.activePool, w) := rfl

theorem manager_activate (w : World) (z : Str) :
    manager w (IOCAGE ++ [str "activate", z]) = ([], { w with activePool := z }) := rfl

theorem manager_start (w : World) (n : Str) :
    manager w (IOCAGE ++ [str "start", n]) =
      ([], { w with jails := updateJailState w.jails n (str "up") }) := rfl

theorem manager_stop (w : World) (n : Str) :
    manager w (IOCAGE ++ [str "stop", str "-f", n]) =
      ([], { w with jails := updateJailState w.jails n (str "down") }) := rfl

theorem manager_destroy (w : World) (n : Str) :
    manager w (IOCAGE ++ [str "destroy", str "-f", n]) =
      ([], { w with jails := w.jails.filter (fun j => decide (j.name ≠ n)) }) := rfl

theorem manager_getAll (w : World) (n : Str) :
    manager w (IOCAGE ++ [str "get", str "all", n]) =
      (renderProps (jailPropsOf w n), w) := rfl

theorem manager_set (w : World) (kv n : Str) :
    manager w (IOCAGE ++ [str "set", kv, n]) =
      ([], { w with jails := setJailProp w.jails n (splitFirstOn '=' kv).1 (splitFirstOn '=' kv).2 }) := rfl

theorem manager_create (w : World) (args : List Str) :
    manager w (str "iocage" :: str "create" :: args) =
      ([], { w with jails := w.jails ++ [createdJail w.createSetsProps args] }) := rfl

theorem manager_getProp (w : World) (k n : Str) (hk : k ≠ str "all") :
    manager w (IOCAGE ++ [str "get", k, n]) = (getPropOut w k n, w) := by
  have h : manager w (IOCAGE ++ [str "get", k, n]) =
      if str "get" = str "get" ∧ k = str "all" then (renderProps (jailPropsOf w n), w)
      else (getPropOut w k n, w) := rfl
  rw [h, if_neg (fun hand => hk hand.2)]

/-- A field that survives the tab-delimited, newline-joined listing. -/
def cleanField (s : Str) : Prop := '\t' ∉ s ∧ '\n' ∉ s

/-- Well-formedness of a managed jail's listing fields. -/
def wfRec (j : JailRec) : Prop :=
  cleanField j.jailid ∧ cleanField j.name ∧ cleanField j.boot ∧ cleanField j.state ∧
  cleanField j.type ∧ cleanField j.release ∧ cleanField j.ipv4 ∧ cleanField j.ipv6 ∧
  cleanField j.template ∧ cleanField j.basejail

/-- The parsed row corresponding to a managed jail. -/
def rowOf (j : JailRec) : Row :=
  ⟨j.jailid, j.name, j.boot, j.state, j.type, j.release, j.ipv4, j.ipv6, j.template, j.basejail⟩

theorem not_mem_append_cons {c sep : Char} {a b : Str} (hne : c ≠ sep)
    (ha : c ∉ a) (hb : c ∉ b) : c ∉ a ++ sep :: b := by
  intro hmem
  rcases List.mem_append.mp hmem with hx | hx
  · exact ha hx
  · rcases List.mem_cons.mp hx with rfl | hx
    · exact hne rfl
    · exact hb hx

theorem splitCh_renderRow {j : JailRec} (h : wfRec j) :
    splitCh '\t' (renderRow j) = [j.jailid, j.name, j.boot, j.state, j.type,
      j.release, j.ipv4, j.ipv6, j.template, j.basejail] := by
  obtain ⟨h1, h2, h3, h4, h5, h6, h7, h8, h9, h10⟩ := h
  unfold renderRow
  rw [splitCh_append _ h1.1, splitCh_append _ h2.1, splitCh_append _ h3.1,
      splitCh_append _ h4.1, splitCh_append _ h5.1, splitCh_append _ h6.1,
      splitCh_append _ h7.1, splitCh_append _ h8.1, splitCh_append _ h9.1,
      splitCh_of_not_mem h10.1]

theorem parseLine_renderRow {j : JailRec} (h : wfRec j) :
    parseLine (renderRow j) = .ok (rowOf j) := by
  simp only [parseLine, splitCh_renderRow h]
  rfl

theorem renderRow_no_newline {j : JailRec} (h : wfRec j) : '\n' ∉ renderRow j := by
  obtain ⟨h1, h2, h3, h4, h5, h6, h7, h8, h9, h10⟩ := h
  unfold renderRow
  exact not_mem_append_cons (by decide) h1.2 (not_mem_append_cons (by decide) h2.2
    (not_mem_append_cons (by decide) h3.2 (not_mem_append_cons (by decide) h4.2
    (not_mem_append_cons (by decide) h5.2 (not_mem_append_cons (by decide) h6.2
    (not_mem_append_cons (by decide) h7.2 (not_mem_append_cons (by decide) h8.2
    (not_mem_append_cons (by decide) h9.2 h10.2))))))))

theorem renderRow_ne_nil (j : JailRec) : renderRow j ≠ [] := by
  unfold renderRow
  simp

theorem parse_listing {js : List JailRec} (h : ∀ j ∈ js, wfRec j) :
    parse_list_output (renderListing js) = .ok (js.map rowOf) := by
  unfold parse_list_output renderListing
  rw [pySplitlines_joinLines (by
    intro l hl
    rw [List.mem_map] at hl
    obtain ⟨j, hj, rfl⟩ := hl
    exact ⟨renderRow_no_newline (h j hj), renderRow_ne_nil j⟩)]
  induction js with
  | nil => rfl
  | cons j js ih =>
    have hj := h j (List.mem_cons_self j js)
    have hrest : ∀ x ∈ js, wfRec x := fun x hx => h x (List.mem_cons_of_mem j hx)
    show parse_list_output.go (renderRow j :: js.map renderRow) = _
    unfold parse_list_output.go
    rw [parseLine_renderRow hj, ih hrest]
    rfl

/-- Value of the existence check on a world (the parsed rows filtered by
the Python conditional of `exists`, see `exists_`). -/
def existsB (w : World) (jail : Jail) : Bool :=
  (w.jails.map rowOf).any fun line =>
    if truthy jail.name then decide (line.name = jail.name) else truthy jail.uuid

/-- Value of the running check on a world (see `is_started`). -/
def startedB (w : World) (jail : Jail) : Bool :=
  (w.jails.map rowOf).any fun line =>
    decide (line.name = jail.name) && decide (line.state = str "up")

theorem exists_apply (jail : Jail) (w : World)
    (h : ∀ j ∈ w.jails, wfRec j) (t : List (List Str)) :
    exists_ jail ⟨w, t⟩ = (.ok (existsB w jail), ⟨w, t ++ [listCmd]⟩) := by
  unfold exists_
  rw [runCmd_bind]
  show (match parse_list_output (renderListing w.jails) with
    | .error .stopIteration => (pure false : M Bool)
    | .error e => mthrow e
    | .ok output => pure (output.any fun line =>
        if truthy jail.name then decide (line.name = jail.name) else truthy jail.uuid))
    ⟨w, t ++ [listCmd]⟩ = _
  rw [parse_listing h]
  rfl

theorem is_started_apply (jail : Jail) (w : World)
    (h : ∀ j ∈ w.jails, wfRec j) (t : List (List Str)) :
    is_started jail ⟨w, t⟩ = (.ok (startedB w jail), ⟨w, t ++ [listCmd]⟩) := by
  unfold is_started
  rw [runCmd_bind]
  show (match parse_list_output (renderListing w.jails) with
    | .error e => (mthrow e : M Bool)
    | .ok output => pure (output.any fun line =>
        decide (line.name = jail.name) && decide (line.state = str "up")))
    ⟨w, t ++ [listCmd]⟩ = _
  rw [parse_listing h]
  rfl

theorem get_activated_zpool_apply (w : World) (t : List (List Str)) :
    get_activated_zpool ⟨w, t⟩ = (.ok (pyStrip w.activePool), ⟨w, t ++ [getPoolCmd]⟩) := rfl

theorem is_activated_apply (z : Str) (w : World) (t : List (List Str)) :
    is_activated z ⟨w, t⟩ =
      (.ok (decide (pyStrip w.activePool = z)), ⟨w, t ++ [getPoolCmd]⟩) := rfl

theorem activate_apply (z : Str) (w : World) (t : List (List Str)) :
    activate z ⟨w, t⟩ = (.ok (), ⟨{ w with activePool := z }, t ++ [activateCmd z]⟩) := rfl

theorem start_apply (jail : Jail) (w : World) (t : List (List Str)) :
    start jail ⟨w, t⟩ =
      (.ok (), ⟨{ w with jails := updateJailState w.jails (identOf jail) (str "up") },
        t ++ [startCmd (identOf jail)]⟩) := rfl

theorem stop_apply (jail : Jail) (w : World) (t : List (List Str)) :
    stop jail ⟨w, t⟩ =
      (.ok (), ⟨{ w with jails := updateJailState w.jails (identOf jail) (str "down") },
        t ++ [stopCmd (identOf jail)]⟩) := rfl

theorem destroy_apply (jail : Jail) (w : World) (t : List (List Str)) :
    destroy jail ⟨w, t⟩ =
      (.ok (), ⟨{ w with jails := w.jails.filter (fun j => decide (j.name ≠ identOf jail)) },
        t ++ [destroyCmd (identOf jail)]⟩) := rfl

theorem create_apply (jail : Jail) (w : World) (t : List (List Str)) :
    create jail ⟨w, t⟩ =
      (.ok (), ⟨{ w with jails := w.jails ++
          [createdJail w.createSetsProps (createCmd jail).tail.tail] },
        t ++ [createCmd jail]⟩) := rfl

/-- One desired property drifts when key and value are truthy and the
stored value (stripped) differs from the desired one — the test
`has_changed_properties` applies per pair. -/
def driftB (w : World) (jail : Jail) (kv : Str × Str) : Bool :=
  truthy kv.1 && truthy kv.2 &&
    decide (pyStrip (getPropOut w kv.1 (identOf jail)) ≠ kv.2)

/-- Commands `has_changed_properties` issues: one `get` per truthy pair
until the first drifted property stops the loop. -/
def hcTrace (w : World) (jail : Jail) : List (Str × Str) → List (List Str)
  | [] => []
  | kv :: rest =>
    if truthy kv.1 && truthy kv.2 then
      if pyStrip (getPropOut w kv.1 (identOf jail)) ≠ kv.2 then [getCmd kv.1 (identOf jail)]
      else getCmd kv.1 (identOf jail) :: hcTrace w jail rest
    else hcTrace w jail rest

theorem hasChangedLoop_apply (jail : Jail) (ps : List (Str × Str))
    (hall : ∀ kv ∈ ps, kv.1 ≠ str "all") :
    ∀ t, hasChangedLoop jail ps ⟨w, t⟩ =
      (.ok (ps.any (driftB w jail)), ⟨w, t ++ hcTrace w jail ps⟩) := by
  induction ps with
  | nil => intro t; simp [hasChangedLoop, hcTrace, mpure]
  | cons kv rest ih =>
    intro t
    obtain ⟨k, v⟩ := kv
    have hk : k ≠ str "all" := hall (k, v) (List.mem_cons_self _ _)
    have hrest : ∀ kv ∈ rest, kv.1 ≠ str "all" :=
      fun kv hkv => hall kv (List.mem_cons_of_mem _ hkv)
    unfold hasChangedLoop
    by_cases hc : (truthy k && truthy v) = true
    · rw [if_pos hc, runCmd_bind]
      simp only [manager_getProp w k (identOf jail) hk]
      by_cases hd : pyStrip (getPropOut w k (identOf jail)) = v
      · rw [if_neg (by simpa using hd), ih hrest]
        simp [driftB, hcTrace, hc, hd, List.append_assoc, getCmd, IOCAGE]
      · rw [if_pos hd]
        simp [mpure_apply, driftB, hcTrace, hc, hd, getCmd, IOCAGE]
    · rw [if_neg hc, ih hrest]
      simp [driftB, hcTrace, hc]

theorem has_changed_properties_apply (jail : Jail) {ps : List (Str × Str)}
    (hps : jail.properties = some ps) (hall : ∀ kv ∈ ps, kv.1 ≠ str "all")
    (w : World) : ∀ (t : List (List Str)),
    has_changed_properties jail ⟨w, t⟩ =
      (.ok (ps.any (driftB w jail)), ⟨w, t ++ hcTrace w jail ps⟩) := by
  intro t
  unfold has_changed_properties
  rw [hps]
  exact hasChangedLoop_apply jail ps hall t

theorem splitFirstOn_sep {sep : Char} {a : Str} (b : Str) (h : sep ∉ a) :
    splitFirstOn sep (a ++ sep :: b) = (a, b) := by
  induction a with
  | nil => simp [splitFirstOn]
  | cons c cs ih =>
    have hc : c ≠ sep := fun hceq => h (hceq ▸ List.mem_cons_self c cs)
    have hcs : sep ∉ cs := fun hmem => h (List.mem_cons_of_mem c hmem)
    show splitFirstOn sep (c :: (cs ++ sep :: b)) = _
    simp [splitFirstOn, hc, ih hcs]

/-- World update performed by one accepted `set` command. -/
def setWorldProp (w : World) (n k v : Str) : World :=
  { w with jails := setJailProp w.jails n k v }

/-- Commands `set_properties` issues: one `get` per truthy pair
(addressed by `jail.name`), followed by a `set` when the value drifts
(addressed by `name if name else uuid`), against the evolving world. -/
def spTrace (w : World) (jail : Jail) : List (Str × Str) → List (List Str)
  | [] => []
  | kv :: rest =>
    if truthy kv.1 && truthy kv.2 then
      if pyStrip (getPropOut w kv.1 jail.name) ≠ kv.2 then
        getCmd kv.1 jail.name :: setCmd kv.1 kv.2 (identOf jail) ::
          spTrace (setWorldProp w (identOf jail) kv.1 kv.2) jail rest
      else getCmd kv.1 jail.name :: spTrace w jail rest
    else spTrace w jail rest

/-- World after `set_properties` has applied every drifted pair. -/
def spWorld (w : World) (jail : Jail) : List (Str × Str) → World
  | [] => w
  | kv :: rest =>
    if truthy kv.1 && truthy kv.2 then
      if pyStrip (getPropOut w kv.1 jail.name) ≠ kv.2 then
        spWorld (setWorldProp w (identOf jail) kv.1 kv.2) jail rest
      else spWorld w jail rest
    else spWorld w jail rest

theorem setPropsLoop_apply (jail : Jail) (ps : List (Str × Str))
    (hall : ∀ kv ∈ ps, kv.1 ≠ str "all") (heq : ∀ kv ∈ ps, '=' ∉ kv.1) :
    ∀ w t, setPropsLoop jail ps ⟨w, t⟩ =
      (.ok (), ⟨spWorld w jail ps, t ++ spTrace w jail ps⟩) := by
  induction ps with
  | nil => intro w t; simp [setPropsLoop, spWorld, spTrace, mpure]
  | cons kv rest ih =>
    intro w t
    obtain ⟨k, v⟩ := kv
    have hk : k ≠ str "all" := hall (k, v) (List.mem_cons_self _ _)
    have hke : '=' ∉ k := heq (k, v) (List.mem_cons_self _ _)
    have hrest : ∀ kv ∈ rest, kv.1 ≠ str "all" :=
      fun kv hkv => hall kv (List.mem_cons_of_mem _ hkv)
    have hrest2 : ∀ kv ∈ rest, '=' ∉ kv.1 :=
      fun kv hkv => heq kv (List.mem_cons_of_mem _ hkv)
    unfold setPropsLoop
    by_cases hc : (truthy k && truthy v) = true
    · rw [if_pos hc, runCmd_bind]
      simp only [manager_getProp w k jail.name hk]
      by_cases hd : pyStrip (getPropOut w k jail.name) = v
      · rw [if_neg (by simpa using hd), ih hrest hrest2]
        simp [spWorld, spTrace, hc, hd, List.append_assoc, getCmd, IOCAGE]
      · rw [if_pos hd, runCmd_bind]
        simp only [manager_set]
        rw [splitFirstOn_sep v hke, ih hrest hrest2]
        simp only [spWorld, spTrace, if_pos hc, if_pos hd]
        simp [setWorldProp, setCmd, getCmd, IOCAGE, List.append_assoc]
    · rw [if_neg hc, ih hrest hrest2]
      simp [spWorld, spTrace, hc]

theorem set_properties_apply (jail : Jail) {ps : List (Str × Str)}
    (hps : jail.properties = some ps) (hall : ∀ kv ∈ ps, kv.1 ≠ str "all")
    (heq : ∀ kv ∈ ps, '=' ∉ kv.1) (w : World) : ∀ (t : List (List Str)),
    set_properties jail ⟨w, t⟩ =
      (.ok (), ⟨spWorld w jail ps, t ++ spTrace w jail ps⟩) := by
  intro t
  unfold set_properties
  rw [hps]
  exact setPropsLoop_apply jail ps hall heq w t

theorem splitCh_two_of_mem {sep : Char} {l : Str} (h : sep ∈ l) :
    ∃ x y rest, splitCh sep l = x :: y :: rest := by
  induction l with
  | nil => cases h
  | cons c cs ih =>
    by_cases hc : c = sep
    · subst hc
      cases hb : splitCh c cs with
      | nil => exact absurd hb (splitCh_ne_nil c cs)
      | cons x t => exact ⟨[], x, t, by simp [splitCh, hb]⟩
    · have hcs : sep ∈ cs := by
        rcases List.mem_cons.mp h with rfl | hx
        · exact absurd rfl hc
        · exact hx
      obtain ⟨x, y, rest, hxy⟩ := ih hcs
      exact ⟨c :: x, y, rest, by simp [splitCh, hxy, hc]⟩

theorem add_line_ok_of_mem {l : Str} (acc : List (Str × Str)) (h : ':' ∈ l) :
    ∃ out, add_line_to_properties acc l = .ok out := by
  obtain ⟨x, y, rest, hxy⟩ := splitCh_two_of_mem h
  exact ⟨setAssoc acc x y, by simp [add_line_to_properties, hxy]⟩

theorem propsLoopLines_ok {ls : List Str} (h : ∀ l ∈ ls, ':' ∈ l) :
    ∀ acc s, ∃ acc', propsLoopLines acc ls s = (.ok acc', s) := by
  induction ls with
  | nil => intro acc s; exact ⟨acc, rfl⟩
  | cons l ls ih =>
    intro acc s
    have hl : ':' ∈ pyStrip l :=
      mem_pyStrip_of_mem (h l (List.mem_cons_self _ _)) (by decide)
    have hrest : ∀ x ∈ ls, ':' ∈ x := fun x hx => h x (List.mem_cons_of_mem l hx)
    obtain ⟨out, hout⟩ := add_line_ok_of_mem acc hl
    obtain ⟨acc', hacc⟩ := ih hrest out s
    refine ⟨acc', ?_⟩
    unfold propsLoopLines
    rw [hout]
    exact hacc

/-- Property stores whose rendered `get all` dump parses back without
raising. -/
def wfProps (props : List (Str × Str)) : Prop :=
  ∀ kv ∈ props, '\n' ∉ kv.1 ∧ '\n' ∉ kv.2

theorem get_properties_all_apply (jail : Jail) (w : World) (t : List (List Str))
    (h : wfProps (jailPropsOf w (identOf jail))) :
    ∃ props, get_properties jail none ⟨w, t⟩ =
      (.ok props, ⟨w, t ++ [getAllCmd (identOf jail)]⟩) := by
  have hbody : get_properties jail none ⟨w, t⟩ =
      propsLoopLines [] (pySplitlines (renderProps (jailPropsOf w (identOf jail))))
        ⟨w, t ++ [getAllCmd (identOf jail)]⟩ := by
    unfold get_properties
    rw [if_pos (by decide), runCmd_bind]
    simp only [manager_getAll]
    rfl
  have hlines : pySplitlines (renderProps (jailPropsOf w (identOf jail))) =
      (jailPropsOf w (identOf jail)).map (fun kv => kv.1 ++ ':' :: kv.2) := by
    unfold renderProps
    apply pySplitlines_joinLines
    intro l hl
    rw [List.mem_map] at hl
    obtain ⟨kv, hkv, rfl⟩ := hl
    obtain ⟨hk, hv⟩ := h kv hkv
    refine ⟨not_mem_append_cons (by decide) hk hv, ?_⟩
    simp
  have hmem : ∀ l ∈ (jailPropsOf w (identOf jail)).map (fun kv => kv.1 ++ ':' :: kv.2),
      ':' ∈ l := by
    intro l hl
    rw [List.mem_map] at hl
    obtain ⟨kv, _, rfl⟩ := hl
    exact List.mem_append.mpr (Or.inr (List.mem_cons_self _ _))
  obtain ⟨acc', hacc⟩ := propsLoopLines_ok hmem [] ⟨w, t ++ [getAllCmd (identOf jail)]⟩
  rw [hbody, hlines]
  exact ⟨acc', hacc⟩

/-- Worlds whose jail listing round-trips through the tabular parser. -/
def wfWorld (w : World) : Prop := ∀ j ∈ w.jails, wfRec j

/-- World after a stop command addressed to the jail. -/
def stopServer (w : World) (jail : Jail) : World :=
  { w with jails := updateJailState w.jails (identOf jail) (str "down") }

/-- World after a destroy command addressed to the jail. -/
def destroyServer (w : World) (jail : Jail) : World :=
  { w with jails := w.jails.filter (fun j => decide (j.name ≠ identOf jail)) }

/-- World after a start command addressed to the jail. -/
def startServer (w : World) (jail : Jail) : World :=
  { w with jails := updateJailState w.jails (identOf jail) (str "up") }

/-- World after a create command built from the jail's spec. -/
def createServer (w : World) (jail : Jail) : World :=
  { w with jails := w.jails ++ [createdJail w.createSetsProps (createCmd jail).tail.tail] }

theorem zpool_block_skip {z : Str} (hz : truthy z = false) (r : ResultR) (s : St) :
    zpool_block z r s = (.ok r, s) := by
  unfold zpool_block
  rw [if_neg (by simp [hz])]
  rfl

theorem zpool_block_active {z : Str} {w : World} (hz : truthy z = true)
    (hact : pyStrip w.activePool = z) (r : ResultR) (t : List (List Str)) :
    zpool_block z r ⟨w, t⟩ = (.ok r, ⟨w, t ++ [getPoolCmd]⟩) := by
  unfold zpool_block
  rw [if_pos hz]
  simp [bind_apply, is_activated_apply z w, pure_apply, hact]

theorem zpool_block_inactive {z : Str} {w : World} (hz : truthy z = true)
    (hact : pyStrip w.activePool ≠ z) (r : ResultR) (t : List (List Str)) :
    zpool_block z r ⟨w, t⟩ =
      (.ok (addMessage { r with changed := true } (msgActivated z)),
        ⟨{ w with activePool := z }, t ++ [getPoolCmd, activateCmd z]⟩) := by
  unfold zpool_block
  rw [if_pos hz]
  simp [bind_apply, is_activated_apply z w, pure_apply, activate_apply z w, hact]

theorem create_block_skip {jail : Jail} (h1 : jail.state ≠ str "present")
    (h2 : jail.state ≠ str "started") (r : ResultR) (s : St) :
    create_block jail r s = (.ok r, s) := by
  unfold create_block
  rw [if_neg (by simp [h1, h2])]
  simp [bind_apply, pure_apply]

theorem create_block_found {jail : Jail} {w : World}
    (hc : (decide (jail.state = str "present") || decide (jail.state = str "started")) = true)
    (hw : wfWorld w) (hex : existsB w jail = true) (r : ResultR) (t : List (List Str)) :
    create_block jail r ⟨w, t⟩ = (.ok r, ⟨w, t ++ [listCmd]⟩) := by
  unfold create_block
  rw [if_pos hc]
  simp [bind_apply, exists_apply jail w hw, pure_apply, hex]

theorem create_block_missing {jail : Jail} {w : World}
    (hc : (decide (jail.state = str "present") || decide (jail.state = str "started")) = true)
    (hw : wfWorld w) (hex : existsB w jail = false) (r : ResultR) (t : List (List Str)) :
    create_block jail r ⟨w, t⟩ =
      (.ok (addMessage { r with changed := true } (msgCreated jail.name)),
        ⟨createServer w jail, t ++ [listCmd, createCmd jail]⟩) := by
  unfold create_block
  rw [if_pos hc]
  simp [bind_apply, exists_apply jail w hw, pure_apply, hex, create_apply jail w, createServer, List.append_assoc]

theorem started_block_skip {jail : Jail} (h : jail.state ≠ str "started")
    (r : ResultR) (s : St) : started_block jail r s = (.ok r, s) := by
  unfold started_block
  rw [if_neg h]
  simp [bind_apply, pure_apply]

theorem started_block_running {jail : Jail} {w : World}
    (hstate : jail.state = str "started") (hw : wfWorld w)
    (hrun : startedB w jail = true) (r : ResultR) (t : List (List Str)) :
    started_block jail r ⟨w, t⟩ = (.ok r, ⟨w, t ++ [listCmd]⟩) := by
  unfold started_block
  rw [if_pos hstate]
  simp [bind_apply, is_started_apply jail w hw, pure_apply, hrun]

theorem started_block_nodrift {jail : Jail} {w : World} {ps : List (Str × Str)}
    (hstate : jail.state = str "started") (hw : wfWorld w)
    (hrun : startedB w jail = false) (hps : jail.properties = some ps)
    (hall : ∀ kv ∈ ps, kv.1 ≠ str "all")
    (hnod : ps.any (driftB w jail) = false) (r : ResultR) (t : List (List Str)) :
    started_block jail r ⟨w, t⟩ =
      (.ok (addMessage { r with changed := true } (msgStarted jail.name)),
        ⟨startServer w jail, t ++ [listCmd] ++ hcTrace w jail ps ++ [startCmd (identOf jail)]⟩) := by
  unfold started_block
  rw [if_pos hstate]
  simp [bind_apply, is_started_apply jail w hw, pure_apply, hrun,
    has_changed_properties_apply jail hps hall w, hnod, start_apply jail w, mpure_apply, startServer, List.append_assoc]

theorem started_block_drift {jail : Jail} {w : World} {ps : List (Str × Str)}
    (hstate : jail.state = str "started") (hw : wfWorld w)
    (hrun : startedB w jail = false) (hps : jail.properties = some ps)
    (hall : ∀ kv ∈ ps, kv.1 ≠ str "all") (heq : ∀ kv ∈ ps, '=' ∉ kv.1)
    (hdr : ps.any (driftB w jail) = true) (r : ResultR) (t : List (List Str)) :
    started_block jail r ⟨w, t⟩ =
      (.ok (addMessage { r with changed := true } (msgStarted jail.name)),
        ⟨startServer (spWorld w jail ps) jail,
          t ++ [listCmd] ++ hcTrace w jail ps ++ spTrace w jail ps
            ++ [startCmd (identOf jail)]⟩) := by
  unfold started_block
  rw [if_pos hstate]
  simp [bind_apply, is_started_apply jail w hw, pure_apply, hrun,
    has_changed_properties_apply jail hps hall w, hdr,
    set_properties_apply jail hps hall heq w, start_apply jail (spWorld w jail ps), startServer, List.append_assoc]

theorem restart_block_skip {jail : Jail} (h : jail.state ≠ str "started")
    (r : ResultR) (s : St) : restart_block jail r s = (.ok r, s) := by
  unfold restart_block
  rw [if_neg h]
  simp [bind_apply, pure_apply]

theorem restart_block_stopped {jail : Jail} {w : World}
    (hstate : jail.state = str "started") (hw : wfWorld w)
    (hrun : startedB w jail = false) (r : ResultR) (t : List (List Str)) :
    restart_block jail r ⟨w, t⟩ = (.ok r, ⟨w, t ++ [listCmd]⟩) := by
  unfold restart_block
  rw [if_pos hstate]
  simp [bind_apply, is_started_apply jail w hw, pure_apply, hrun]

theorem restart_block_nodrift {jail : Jail} {w : World} {ps : List (Str × Str)}
    (hstate : jail.state = str "started") (hw : wfWorld w)
    (hrun : startedB w jail = true) (hps : jail.properties = some ps)
    (hall : ∀ kv ∈ ps, kv.1 ≠ str "all")
    (hnod : ps.any (driftB w jail) = false) (r : ResultR) (t : List (List Str)) :
    restart_block jail r ⟨w, t⟩ = (.ok r, ⟨w, t ++ [listCmd] ++ hcTrace w jail ps⟩) := by
  unfold restart_block
  rw [if_pos hstate]
  simp [bind_apply, is_started_apply jail w hw, pure_apply, hrun,
    has_changed_properties_apply jail hps hall w, hnod, List.append_assoc]

theorem restart_block_drift {jail : Jail} {w : World} {ps : List (Str × Str)}
    (hstate : jail.state = str "started") (hw : wfWorld w)
    (hrun : startedB w jail = true) (hps : jail.properties = some ps)
    (hall : ∀ kv ∈ ps, kv.1 ≠ str "all") (heq : ∀ kv ∈ ps, '=' ∉ kv.1)
    (hdr : ps.any (driftB w jail) = true) (r : ResultR) (t : List (List Str)) :
    restart_block jail r ⟨w, t⟩ =
      (.ok (addMessage { r with changed := true } (msgStarted jail.name)),
        ⟨startServer (spWorld (stopServer w jail) jail ps) jail,
          t ++ [listCmd] ++ hcTrace w jail ps ++ [stopCmd (identOf jail)]
            ++ spTrace (stopServer w jail) jail ps ++ [startCmd (identOf jail)]⟩) := by
  unfold restart_block
  rw [if_pos hstate]
  simp [bind_apply, is_started_apply jail w hw, pure_apply, hrun,
    has_changed_properties_apply jail hps hall w, hdr, stop_apply jail w,
    set_properties_apply jail hps hall heq
      { w with jails := updateJailState w.jails (identOf jail) (str "down") },
    start_apply jail
      (spWorld { w with jails := updateJailState w.jails (identOf jail) (str "down") } jail ps), startServer, stopServer, List.append_assoc]

theorem present_block_skip {jail : Jail} (h : jail.state ≠ str "present")
    (r : ResultR) (s : St) : present_block jail r s = (.ok r, s) := by
  unfold present_block
  rw [if_neg h]
  simp [bind_apply, pure_apply]

theorem present_block_stopped {jail : Jail} {w : World}
    (hstate : jail.state = str "present") (hw : wfWorld w)
    (hrun : startedB w jail = false) (r : ResultR) (t : List (List Str)) :
    present_block jail r ⟨w, t⟩ = (.ok r, ⟨w, t ++ [listCmd]⟩) := by
  unfold present_block
  rw [if_pos hstate]
  simp [bind_apply, is_started_apply jail w hw, pure_apply, hrun]

theorem absent_block_skip {jail : Jail} (h : jail.state ≠ str "absent")
    (r : ResultR) (s : St) : absent_block jail r s = (.ok r, s) := by
  unfold absent_block
  rw [if_neg h]
  simp [bind_apply, pure_apply]

theorem absent_block_missing {jail : Jail} {w : World}
    (hstate : jail.state = str "absent") (hw : wfWorld w)
    (hex : existsB w jail = false) (r : ResultR) (t : List (List Str)) :
    absent_block jail r ⟨w, t⟩ = (.ok r, ⟨w, t ++ [listCmd]⟩) := by
  unfold absent_block
  rw [if_pos hstate]
  simp [bind_apply, exists_apply jail w hw, pure_apply, hex]

theorem absent_block_running {jail : Jail} {w : World}
    (hstate : jail.state = str "absent") (hw : wfWorld w)
    (hex : existsB w jail = true) (hrun : startedB w jail = true)
    (r : ResultR) (t : List (List Str)) :
    absent_block jail r ⟨w, t⟩ =
      (.ok (addMessage { (addMessage { r with changed := true } (msgStopped jail.name)) with
            changed := true } (msgDestroyed jail.name)),
        ⟨destroyServer (stopServer w jail) jail,
          t ++ [listCmd, listCmd, stopCmd (identOf jail), destroyCmd (identOf jail)]⟩) := by
  unfold absent_block
  rw [if_pos hstate]
  simp [bind_apply, exists_apply jail w hw, pure_apply, hex,
    is_started_apply jail w hw, hrun, stop_apply jail w,
    destroy_apply jail { w with jails := updateJailState w.jails (identOf jail) (str "down") }, stopServer, destroyServer, List.append_assoc]

theorem absent_block_stopped {jail : Jail} {w : World}
    (hstate : jail.state = str "absent") (hw : wfWorld w)
    (hex : existsB w jail = true) (hrun : startedB w jail = false)
    (r : ResultR) (t : List (List Str)) :
    absent_block jail r ⟨w, t⟩ =
      (.ok (addMessage { r with changed := true } (msgDestroyed jail.name)),
        ⟨destroyServer w jail, t ++ [listCmd, listCmd, destroyCmd (identOf jail)]⟩) := by
  unfold absent_block
  rw [if_pos hstate]
  simp [bind_apply, exists_apply jail w hw, pure_apply, hex,
    is_started_apply jail w hw, hrun, destroy_apply jail w, destroyServer, List.append_assoc]

theorem final_block_missing {jail : Jail} {w : World} (hw : wfWorld w)
    (hex : existsB w jail = false) (r : ResultR) (t : List (List Str)) :
    final_block jail r ⟨w, t⟩ = (.ok r, ⟨w, t ++ [listCmd]⟩) := by
  unfold final_block
  simp [bind_apply, exists_apply jail w hw, pure_apply, hex]

theorem final_block_found {jail : Jail} {w : World} (hw : wfWorld w)
    (hex : existsB w jail = true) (hp : wfProps (jailPropsOf w (identOf jail)))
    (r : ResultR) (t : List (List Str)) :
    ∃ a, final_block jail r ⟨w, t⟩ =
      (.ok { r with attrs := some a },
        ⟨w, t ++ [listCmd, getPoolCmd, getAllCmd (identOf jail)]⟩) := by
  obtain ⟨props, hprops⟩ :=
    get_properties_all_apply jail w (t ++ [listCmd, getPoolCmd]) hp
  refine ⟨{ name := jail.name, uuid := jail.uuid, zpool := pyStrip w.activePool,
            release := jail.release, state := jail.state, properties := props }, ?_⟩
  unfold final_block
  simp [bind_apply, exists_apply jail w hw, pure_apply, hex,
    get_activated_zpool_apply w, hprops, List.append_assoc]

/-- A command that mutates a container: `create`, `start`, `stop`,
`destroy` or `set` (queries — `list`, `get` — and pool activation are
not container actions). -/
def isContainerAction (cmd : List Str) : Bool :=
  match cmd with
  | _ :: a :: _ =>
    decide (a = str "create") || decide (a = str "start") || decide (a = str "stop")
      || decide (a = str "destroy") || decide (a = str "set")
  | _ => false

/-- The container-action subsequence of an executed trace — the "action
sequence" of the spec's transition table. -/
def containerActions (tr : List (List Str)) : List (List Str) :=
  tr.filter isContainerAction

theorem containerActions_append (a b : List (List Str)) :
    containerActions (a ++ b) = containerActions a ++ containerActions b :=
  List.filter_append a b

theorem isContainerAction_listCmd : isContainerAction listCmd = false := rfl

theorem isContainerAction_getPoolCmd : isContainerAction getPoolCmd = false := rfl

theorem isContainerAction_activateCmd (z : Str) :
    isContainerAction (activateCmd z) = false := rfl

theorem isContainerAction_getCmd (k n : Str) : isContainerAction (getCmd k n) = false := rfl

theorem isContainerAction_getAllCmd (n : Str) :
    isContainerAction (getAllCmd n) = false := rfl

theorem isContainerAction_startCmd (n : Str) : isContainerAction (startCmd n) = true := rfl

theorem isContainerAction_stopCmd (n : Str) : isContainerAction (stopCmd n) = true := rfl

theorem isContainerAction_destroyCmd (n : Str) :
    isContainerAction (destroyCmd n) = true := rfl

theorem isContainerAction_setCmd (k v n : Str) :
    isContainerAction (setCmd k v n) = true := rfl

theorem isContainerAction_createCmd (jail : Jail) :
    isContainerAction (createCmd jail) = true := rfl

theorem containerActions_hcTrace (w : World) (jail : Jail) (ps : List (Str × Str)) :
    containerActions (hcTrace w jail ps) = [] := by
  induction ps with
  | nil => rfl
  | cons kv rest ih =>
    unfold hcTrace
    by_cases hc : (truthy kv.1 && truthy kv.2) = true
    · rw [if_pos hc]
      by_cases hd : pyStrip (getPropOut w kv.1 (identOf jail)) = kv.2
      · rw [if_neg (by simpa using hd)]
        simp [containerActions, isContainerAction_getCmd, ih, containerActions] at ih ⊢
        exact ih
      · rw [if_pos hd]
        rfl
    · rw [if_neg hc]
      exact ih

/-- The `set` commands `set_properties` issues, in order: exactly one
per drifted pair, addressed by `name if name else uuid`. -/
def driftedSetCmds (w : World) (jail : Jail) : List (Str × Str) → List (List Str)
  | [] => []
  | kv :: rest =>
    if truthy kv.1 && truthy kv.2 then
      if pyStrip (getPropOut w kv.1 jail.name) ≠ kv.2 then
        setCmd kv.1 kv.2 (identOf jail) ::
          driftedSetCmds (setWorldProp w (identOf jail) kv.1 kv.2) jail rest
      else driftedSetCmds w jail rest
    else driftedSetCmds w jail rest

theorem containerActions_cons (c : List Str) (l : List (List Str)) :
    containerActions (c :: l) =
      if isContainerAction c then c :: containerActions l else containerActions l := by
  simp [containerActions, List.filter_cons]

theorem containerActions_spTrace (w : World) (jail : Jail) (ps : List (Str × Str)) :
    containerActions (spTrace w jail ps) = driftedSetCmds w jail ps := by
  induction ps generalizing w with
  | nil => rfl
  | cons kv rest ih =>
    unfold spTrace driftedSetCmds
    by_cases hc : (truthy kv.1 && truthy kv.2) = true
    · rw [if_pos hc, if_pos hc]
      by_cases hd : pyStrip (getPropOut w kv.1 jail.name) = kv.2
      · rw [if_neg (by simpa using hd), if_neg (by simpa using hd)]
        rw [containerActions_cons, isContainerAction_getCmd, ih w]
        simp
      · rw [if_pos hd, if_pos hd]
        rw [containerActions_cons, isContainerAction_getCmd, containerActions_cons,
          isContainerAction_setCmd, ih (setWorldProp w (identOf jail) kv.1 kv.2)]
        simp
    · rw [if_neg hc, if_neg hc]
      exact ih w

theorem existsB_nil {w : World} (hjails : w.jails = []) (jail : Jail) :
    existsB w jail = false := by
  simp [existsB, hjails]

theorem startedB_nil {w : World} (hjails : w.jails = []) (jail : Jail) :
    startedB w jail = false := by
  simp [startedB, hjails]

theorem existsB_single {w : World} {j : JailRec} {jail : Jail}
    (hjails : w.jails = [j]) (hname : truthy jail.name = true)
    (hjname : j.name = jail.name) : existsB w jail = true := by
  simp [existsB, hjails, hname, rowOf, hjname]

theorem startedB_single {w : World} {j : JailRec} {jail : Jail}
    (hjails : w.jails = [j]) :
    startedB w jail = (decide (j.name = jail.name) && decide (j.state = str "up")) := by
  simp [startedB, hjails, rowOf]

theorem jailPropsOf_single {w : World} {j : JailRec}
    (hjails : w.jails = [j]) {n : Str} (hn : j.name = n) :
    jailPropsOf w n = j.props := by
  simp [jailPropsOf, findJail, hjails, hn]

theorem wfWorld_nil {w : World} (hjails : w.jails = []) : wfWorld w := by
  intro j hj
  rw [hjails] at hj
  cases hj

theorem wfWorld_single {w : World} {j : JailRec} (hjails : w.jails = [j])
    (hj : wfRec j) : wfWorld w := by
  intro x hx
  rw [hjails] at hx
  rcases List.mem_cons.mp hx with rfl | hx
  · exact hj
  · cases hx

/-- Desired properties of a jail spec, the empty list when `None`. -/
def desiredProps (jail : Jail) : List (Str × Str) := jail.properties.getD []

theorem has_changed_properties_apply2 (jail : Jail)
    (hall : ∀ kv ∈ desiredProps jail, kv.1 ≠ str "all") (w : World) :
    ∀ t, has_changed_properties jail ⟨w, t⟩ =
      (.ok ((desiredProps jail).any (driftB w jail)),
        ⟨w, t ++ hcTrace w jail (desiredProps jail)⟩) := by
  intro t
  cases hj : jail.properties with
  | none =>
    have : desiredProps jail = [] := by simp [desiredProps, hj]
    rw [this]
    unfold has_changed_properties
    rw [hj]
    simp [hcTrace, mpure]
  | some ps =>
    have hd : desiredProps jail = ps := by simp [desiredProps, hj]
    rw [hd]
    exact has_changed_properties_apply jail hj (hd ▸ hall) w t

theorem restart_block_nodrift2 {jail : Jail} {w : World}
    (hstate : jail.state = str "started") (hw : wfWorld w)
    (hrun : startedB w jail = true)
    (hall : ∀ kv ∈ desiredProps jail, kv.1 ≠ str "all")
    (hnod : (desiredProps jail).any (driftB w jail) = false)
    (r : ResultR) (t : List (List Str)) :
    restart_block jail r ⟨w, t⟩ =
      (.ok r, ⟨w, t ++ [listCmd] ++ hcTrace w jail (desiredProps jail)⟩) := by
  unfold restart_block
  rw [if_pos hstate]
  simp [bind_apply, is_started_apply jail w hw, pure_apply, hrun,
    has_changed_properties_apply2 jail hall w, hnod, List.append_assoc]

theorem identOf_name {jail : Jail} (h : truthy jail.name = true) :
    identOf jail = jail.name := by
  simp [identOf, h]

/-- The parameters address a single hosted container whose observed
existence, run state and property values already match the desired
state: for `absent` the manager hosts nothing, for `present`/`started`
it hosts exactly the named jail, stopped resp. running, with no drifted
property (and well-formed listing fields and property stores). -/
def converged (p : Params) (w : World) : Prop :=
  (p.state = str "absent" ∧ w.jails = [])
  ∨ ((p.state = str "present" ∨ p.state = str "started") ∧ truthy p.name = true ∧
      (∀ kv ∈ desiredProps (mkJail p), kv.1 ≠ str "all") ∧
      ∃ j, w.jails = [j] ∧ wfRec j ∧ wfProps j.props ∧ j.name = p.name ∧
        (j.state = str "up" ↔ p.state = str "started") ∧
        (desiredProps (mkJail p)).any (driftB w (mkJail p)) = false)

/-- The storage pool, if specified, is already the active one. -/
def poolConverged (p : Params) (w : World) : Prop :=
  truthy p.zpool = true → pyStrip w.activePool = p.zpool

/-- C1: for every desired state (`present`, `started`, `absent`),
reconciling an already-converged container (with the specified pool, if
any, already active) succeeds with `changed = false`, an empty change
message, an unchanged world, and no container action executed. -/
theorem run_module_idempotent (p : Params) (w : World)
    (hconv : converged p w) (hpool : poolConverged p w) :
    ∃ a tr, run_module p { changed := false, message := [], attrs := none } ⟨w, []⟩ =
      (.ok { changed := false, message := [], attrs := a }, ⟨w, tr⟩) ∧
      containerActions tr = [] := by
  have hzp : ∀ r : ResultR, ∃ tz, zpool_block p.zpool r ⟨w, []⟩ = (.ok r, ⟨w, tz⟩) ∧
      containerActions tz = [] := by
    intro r
    by_cases hz : truthy p.zpool = true
    · exact ⟨[getPoolCmd], zpool_block_active hz (hpool hz) r [], by decide⟩
    · exact ⟨[], zpool_block_skip (by simpa using hz) r ⟨w, []⟩, rfl⟩
  obtain ⟨tz, hz1, hz2⟩ := hzp { changed := false, message := [], attrs := none }
  rcases hconv with ⟨hstate, hjails⟩ | ⟨hstates, hname, hall, j, hjails, hwfj, hwfp, hjname, hupiff, hnod⟩
  · -- desired absent, observed absent: every block skips.
    have hw := wfWorld_nil hjails
    have hex := existsB_nil hjails (mkJail p)
    have hstate' : (mkJail p).state = str "absent" := hstate
    have h1 : (mkJail p).state ≠ str "present" := by rw [hstate']; decide
    have h2 : (mkJail p).state ≠ str "started" := by rw [hstate']; decide
    have h3 : (mkJail p).state ≠ str "present" := h1
    refine ⟨none, tz ++ [listCmd, listCmd], ?_, ?_⟩
    · simp [run_module, reconcile_blocks, bind_apply, hz1, create_block_skip h1 h2,
        started_block_skip h2, restart_block_skip h2, present_block_skip h1,
        absent_block_missing hstate' hw hex, final_block_missing hw hex,
        List.append_assoc]
    · rw [containerActions_append, hz2]
      rfl
  · have hw := wfWorld_single hjails hwfj
    have hname' : truthy (mkJail p).name = true := hname
    have hjname' : j.name = (mkJail p).name := hjname
    have hex : existsB w (mkJail p) = true := existsB_single hjails hname' hjname'
    have hid : identOf (mkJail p) = p.name := identOf_name hname'
    have hp : wfProps (jailPropsOf w (identOf (mkJail p))) := by
      rw [hid, jailPropsOf_single hjails hjname]
      exact hwfp
    rcases hstates with hpres | hstar
    · -- desired present, observed stopped with matching properties.
      have hstate' : (mkJail p).state = str "present" := hpres
      have hns : (mkJail p).state ≠ str "started" := by rw [hstate']; decide
      have habs : (mkJail p).state ≠ str "absent" := by rw [hstate']; decide
      have hnotup : ¬ (j.state = str "up") := by
        intro hup
        have := hupiff.mp hup
        rw [hpres] at this
        exact absurd this (by decide)
      have hrun : startedB w (mkJail p) = false := by
        rw [startedB_single hjails]
        simp [hnotup]
      have hc : (decide ((mkJail p).state = str "present")
          || decide ((mkJail p).state = str "started")) = true := by
        simp [hstate']
      obtain ⟨a, hfin⟩ := final_block_found hw hex hp
        { changed := false, message := [], attrs := none } (tz ++ [listCmd, listCmd])
      refine ⟨some a, tz ++ [listCmd, listCmd] ++ [listCmd, getPoolCmd, getAllCmd (identOf (mkJail p))], ?_, ?_⟩
      · simp only [run_module, reconcile_blocks, bind_apply, hz1, create_block_found hc hw hex,
          started_block_skip hns, restart_block_skip hns,
          present_block_stopped hstate' hw hrun, absent_block_skip habs]
        rw [show tz ++ [listCmd] ++ [listCmd] = tz ++ [listCmd, listCmd] by simp]
        rw [hfin]
      · rw [containerActions_append, containerActions_append, hz2]
        rw [hid]
        rfl
    · -- desired started, observed running with matching properties.
      have hstate' : (mkJail p).state = str "started" := hstar
      have hnp : (mkJail p).state ≠ str "present" := by rw [hstate']; decide
      have habs : (mkJail p).state ≠ str "absent" := by rw [hstate']; decide
      have hup : j.state = str "up" := hupiff.mpr hstar
      have hrun : startedB w (mkJail p) = true := by
        rw [startedB_single hjails]
        simp [hup, hjname']
      have hc : (decide ((mkJail p).state = str "present")
          || decide ((mkJail p).state = str "started")) = true := by
        simp [hstate']
      obtain ⟨a, hfin⟩ := final_block_found hw hex hp
        { changed := false, message := [], attrs := none }
        (tz ++ [listCmd, listCmd, listCmd] ++ hcTrace w (mkJail p) (desiredProps (mkJail p)))
      refine ⟨some a,
        tz ++ [listCmd, listCmd, listCmd] ++ hcTrace w (mkJail p) (desiredProps (mkJail p))
          ++ [listCmd, getPoolCmd, getAllCmd (identOf (mkJail p))], ?_, ?_⟩
      · simp only [run_module, reconcile_blocks, bind_apply, hz1, create_block_found hc hw hex,
          started_block_running hstate' hw hrun,
          restart_block_nodrift2 hstate' hw hrun hall hnod,
          present_block_skip hnp, absent_block_skip habs]
        rw [show tz ++ [listCmd] ++ [listCmd] ++ [listCmd] ++ hcTrace w (mkJail p) (desiredProps (mkJail p))
            = tz ++ [listCmd, listCmd, listCmd] ++ hcTrace w (mkJail p) (desiredProps (mkJail p)) by simp]
        rw [hfin]
      · rw [containerActions_append, containerActions_append, containerActions_append, hz2,
          containerActions_hcTrace]
        rw [hid]
        rfl

/-- A concrete running jail used to instantiate the scenario theorems. -/
def jailFix : JailRec :=
  { jailid := str "25", name := str "test", boot := str "off", state := str "up",
    type := str "jail", release := str "12.0-RELEASE", ipv4 := str "-",
    ipv6 := str "-", template := str "-", basejail := str "-",
    props := [(str "boot", str "on")] }

/-- A concrete manager state hosting `jailFix` on pool `zroot`. -/
def worldFix : World :=
  { activePool := str "zroot", jails := [jailFix], createSetsProps := true }

/-- A concrete spec asking for `jailFix` exactly as it is observed. -/
def paramsFix : Params :=
  { zpool := str "zroot", name := str "test", uuid := [],
    release := str "12.0-RELEASE", template := [], empty := false,
    state := str "started", properties := some [(str "boot", str "on")] }

/-- Witness for C1: the converged `started` scenario above reconciles
with `changed = false` and an empty message. -/
theorem run_module_idempotent_witness :
    ∃ a tr, run_module paramsFix { changed := false, message := [], attrs := none }
        ⟨worldFix, []⟩ =
      (.ok { changed := false, message := [], attrs := a }, ⟨worldFix, tr⟩) ∧
      containerActions tr = [] :=
  run_module_idempotent paramsFix worldFix
    (Or.inr ⟨Or.inr rfl, rfl, by decide, jailFix, rfl,
      by unfold wfRec cleanField; decide, by unfold wfProps; decide, rfl,
      by decide, by decide⟩)
    (fun _ => by decide)

theorem find?_map_overwrite (l : List (Str × Str)) (k v k' : Str) (h : k' ≠ k) :
    (l.map (fun p => if p.1 = k then (k, v) else p)).find? (fun p => decide (p.1 = k')) =
      l.find? (fun p => decide (p.1 = k')) := by
  induction l with
  | nil => rfl
  | cons p rest ih =>
    by_cases hp : p.1 = k
    · rw [List.map_cons, if_pos hp]
      rw [List.find?_cons_of_neg _ (by simp [Ne.symm h]),
          List.find?_cons_of_neg _ (by simp [hp, Ne.symm h])]
      exact ih
    · rw [List.map_cons, if_neg hp]
      by_cases hm : p.1 = k'
      · rw [List.find?_cons_of_pos _ (by simp [hm]), List.find?_cons_of_pos _ (by simp [hm])]
      · rw [List.find?_cons_of_neg _ (by simp [hm]), List.find?_cons_of_neg _ (by simp [hm])]
        exact ih

theorem lookupAssoc_append_one (l : List (Str × Str)) (k v k' : Str) (h : k' ≠ k) :
    lookupAssoc (l ++ [(k, v)]) k' = lookupAssoc l k' := by
  induction l with
  | nil =>
    unfold lookupAssoc
    rw [List.nil_append, List.find?_cons_of_neg _ (by simp [Ne.symm h])]
  | cons p rest ih =>
    unfold lookupAssoc
    by_cases hm : p.1 = k'
    · rw [List.cons_append, List.find?_cons_of_pos _ (by simp [hm]),
          List.find?_cons_of_pos _ (by simp [hm])]
    · rw [List.cons_append, List.find?_cons_of_neg _ (by simp [hm]),
          List.find?_cons_of_neg _ (by simp [hm])]
      exact ih

theorem lookupAssoc_setAssoc_ne (l : List (Str × Str)) (k v k' : Str) (h : k' ≠ k) :
    lookupAssoc (setAssoc l k v) k' = lookupAssoc l k' := by
  unfold setAssoc
  by_cases hc : l.any (fun p => decide (p.1 = k)) = true
  · rw [if_pos hc]
    unfold lookupAssoc
    rw [find?_map_overwrite l k v k' h]
  · rw [if_neg hc]
    exact lookupAssoc_append_one l k v k' h

theorem lookupAssoc_setAssoc_self (l : List (Str × Str)) (k v : Str) :
    lookupAssoc (setAssoc l k v) k = some v := by
  unfold setAssoc
  by_cases hc : l.any (fun p => decide (p.1 = k)) = true
  · rw [if_pos hc]
    induction l with
    | nil => cases hc
    | cons p rest ih =>
      by_cases hp : p.1 = k
      · rw [List.map_cons, if_pos hp]
        unfold lookupAssoc
        rw [List.find?_cons_of_pos _ (by simp)]
        rfl
      · rw [List.map_cons, if_neg hp]
        have hc' : rest.any (fun p => decide (p.1 = k)) = true := by
          rcases List.any_eq_true.mp hc with ⟨x, hx, hxk⟩
          rcases List.mem_cons.mp hx with rfl | hx2
          · exact absurd (of_decide_eq_true hxk) hp
          · exact List.any_eq_true.mpr ⟨x, hx2, hxk⟩
        unfold lookupAssoc
        rw [List.find?_cons_of_neg _ (by simp [hp])]
        exact ih hc'
  · rw [if_neg hc]
    induction l with
    | nil =>
      unfold lookupAssoc
      rw [List.nil_append, List.find?_cons_of_pos _ (by simp)]
      rfl
    | cons p rest ih =>
      have hp : ¬ (p.1 = k) := by
        intro hpk
        exact hc (List.any_eq_true.mpr ⟨p, List.mem_cons_self _ _, decide_eq_true hpk⟩)
      have hc' : ¬ (rest.any (fun p => decide (p.1 = k)) = true) := by
        intro hr
        rcases List.any_eq_true.mp hr with ⟨x, hx, hxk⟩
        exact hc (List.any_eq_true.mpr ⟨x, List.mem_cons_of_mem p hx, hxk⟩)
      unfold lookupAssoc
      rw [List.cons_append, List.find?_cons_of_neg _ (by simp [hp])]
      exact ih hc'

theorem findJail_setJailProp (jails : List JailRec) (n k v n' : Str) :
    findJail (setJailProp jails n k v) n' =
      (findJail jails n').map
        (fun j => if j.name = n then { j with props := setAssoc j.props k v } else j) := by
  induction jails with
  | nil => rfl
  | cons j rest ih =>
    unfold setJailProp findJail
    rw [List.map_cons]
    by_cases hj : j.name = n
    · rw [if_pos hj]
      by_cases hm : j.name = n'
      · rw [List.find?_cons_of_pos _ (by simp [hm]), List.find?_cons_of_pos _ (by simp [hm])]
        simp [hj]
      · rw [List.find?_cons_of_neg _ (by simp [hm]), List.find?_cons_of_neg _ (by simp [hm])]
        exact ih
    · rw [if_neg hj]
      by_cases hm : j.name = n'
      · rw [List.find?_cons_of_pos _ (by simp [hm]), List.find?_cons_of_pos _ (by simp [hm])]
        simp [hj]
      · rw [List.find?_cons_of_neg _ (by simp [hm]), List.find?_cons_of_neg _ (by simp [hm])]
        exact ih

theorem getPropOut_set_ne (w : World) (n k v k' n' : Str) (hk : k' ≠ k) :
    getPropOut (setWorldProp w n k v) k' n' = getPropOut w k' n' := by
  unfold getPropOut setWorldProp
  show (match findJail (setJailProp w.jails n k v) n' with
    | none => []
    | some j => (lookupAssoc j.props k').getD []) = _
  rw [findJail_setJailProp]
  cases hf : findJail w.jails n' with
  | none => rfl
  | some j =>
    by_cases hj : j.name = n
    · simp [hj, lookupAssoc_setAssoc_ne j.props k v k' hk]
    · simp [hj]

theorem getPropOut_updateState (w : World) (n st k n' : Str) :
    getPropOut { w with jails := updateJailState w.jails n st } k n' = getPropOut w k n' := by
  unfold getPropOut
  have : findJail (updateJailState w.jails n st) n' =
      (findJail w.jails n').map (fun j => if j.name = n then { j with state := st } else j) := by
    induction w.jails with
    | nil => rfl
    | cons j rest ih =>
      unfold updateJailState findJail
      rw [List.map_cons]
      by_cases hj : j.name = n
      · rw [if_pos hj]
        by_cases hm : j.name = n'
        · rw [List.find?_cons_of_pos _ (by simp [hm]), List.find?_cons_of_pos _ (by simp [hm])]
          simp [hj]
        · rw [List.find?_cons_of_neg _ (by simp [hm]), List.find?_cons_of_neg _ (by simp [hm])]
          exact ih
      · rw [if_neg hj]
        by_cases hm : j.name = n'
        · rw [List.find?_cons_of_pos _ (by simp [hm]), List.find?_cons_of_pos _ (by simp [hm])]
          simp [hj]
        · rw [List.find?_cons_of_neg _ (by simp [hm]), List.find?_cons_of_neg _ (by simp [hm])]
          exact ih
  rw [this]
  cases hf : findJail w.jails n' with
  | none => rfl
  | some j => by_cases hj : j.name = n <;> simp [hj]

/-- Spec-side description of the property-reconciliation sub-protocol,
following the spec's wording: for each desired property with a
non-empty key and value, query its current value against the observed
state `w`; issue a set command exactly when it differs under exact
string comparison; a pair with an empty key or value contributes no
command at all. -/
def set_properties_protocol (w : World) (jail : Jail) : List (Str × Str) → List (List Str)
  | [] => []
  | kv :: rest =>
    (if truthy kv.1 && truthy kv.2 then
      getCmd kv.1 jail.name ::
        (if pyStrip (getPropOut w kv.1 jail.name) ≠ kv.2 then
          [setCmd kv.1 kv.2 (identOf jail)]
        else [])
    else []) ++ set_properties_protocol w jail rest

theorem set_properties_protocol_congr {w w' : World} (jail : Jail)
    {ps : List (Str × Str)}
    (h : ∀ kv ∈ ps, getPropOut w' kv.1 jail.name = getPropOut w kv.1 jail.name) :
    set_properties_protocol w' jail ps = set_properties_protocol w jail ps := by
  induction ps with
  | nil => rfl
  | cons kv rest ih =>
    unfold set_properties_protocol
    rw [h kv (List.mem_cons_self _ _),
        ih (fun x hx => h x (List.mem_cons_of_mem kv hx))]

theorem spTrace_eq_protocol (jail : Jail) (ps : List (Str × Str))
    (hnd : (ps.map Prod.fst).Nodup) :
    ∀ w, spTrace w jail ps = set_properties_protocol w jail ps := by
  induction ps with
  | nil => intro w; rfl
  | cons kv rest ih =>
    intro w
    have hnd' : (rest.map Prod.fst).Nodup := (List.nodup_cons.mp hnd).2
    have hne : ∀ x ∈ rest, x.1 ≠ kv.1 := by
      intro x hx hxeq
      exact (List.nodup_cons.mp hnd).1 (hxeq ▸ List.mem_map_of_mem Prod.fst hx)
    unfold spTrace set_properties_protocol
    by_cases hc : (truthy kv.1 && truthy kv.2) = true
    · rw [if_pos hc, if_pos hc]
      by_cases hd : pyStrip (getPropOut w kv.1 jail.name) = kv.2
      · rw [if_neg (by simpa using hd), if_neg (by simpa using hd), ih hnd' w]
        simp
      · rw [if_pos hd, if_pos hd, ih hnd' (setWorldProp w (identOf jail) kv.1 kv.2)]
        rw [set_properties_protocol_congr jail
          (fun x hx => getPropOut_set_ne w (identOf jail) kv.1 kv.2 x.1 jail.name (hne x hx))]
        simp
    · rw [if_neg hc, if_neg hc]
      exact ih hnd' w

/-- A concrete jail spec with one drifted property and one falsy-value
property. -/
def jailSpecFix : Jail :=
  { name := str "test", uuid := [], release := str "12.0-RELEASE", template := [],
    empty := false, state := str "started",
    properties := some [(str "boot", str "off"), (str "notes", [])] }

/-- C7: during property reconciliation, `set_properties` issues, for
each desired property with a non-empty key and value, one query of the
current value followed by a set command exactly when the current value
differs from the desired one under exact string comparison, and issues
nothing at all (no get, no set) for a pair whose key or value is
empty/falsy; `has_changed_properties` reports drift exactly when some
non-empty pair differs this way. -/
theorem property_reconciliation (jail : Jail) {ps : List (Str × Str)}
    (hps : jail.properties = some ps)
    (hall : ∀ kv ∈ ps, kv.1 ≠ str "all") (heq : ∀ kv ∈ ps, '=' ∉ kv.1)
    (hnd : (ps.map Prod.fst).Nodup) (w : World) (t : List (List Str)) :
    (∃ w', set_properties jail ⟨w, t⟩ =
        (.ok (), ⟨w', t ++ set_properties_protocol w jail ps⟩)) ∧
    (has_changed_properties jail ⟨w, t⟩).1 =
      .ok (ps.any fun kv => truthy kv.1 && truthy kv.2 &&
        decide (pyStrip (getPropOut w kv.1 (identOf jail)) ≠ kv.2)) := by
  constructor
  · refine ⟨spWorld w jail ps, ?_⟩
    rw [set_properties_apply jail hps hall heq w t, spTrace_eq_protocol jail ps hnd w]
  · rw [has_changed_properties_apply jail hps hall w t]
    rfl

/-- Witness for C7 at a concrete two-pair property list: one drifted
pair and one falsy-value pair. -/
theorem property_reconciliation_witness :
    (∃ w', set_properties jailSpecFix ⟨worldFix, []⟩ =
        (.ok (), ⟨w', [] ++ set_properties_protocol worldFix jailSpecFix
          [(str "boot", str "off"), (str "notes", [])]⟩)) ∧
    (has_changed_properties jailSpecFix ⟨worldFix, []⟩).1 =
      .ok ([(str "boot", str "off"), (str "notes", [])].any fun kv =>
        truthy kv.1 && truthy kv.2 &&
          decide (pyStrip (getPropOut worldFix kv.1 (identOf jailSpecFix)) ≠ kv.2)) :=
  property_reconciliation jailSpecFix rfl (by decide) (by decide) (by decide) worldFix []

/-- One set command per drifted desired property, judged against a
fixed observed state `w` — the *plan* the claims describe. -/
def driftedSets (w : World) (jail : Jail) (ps : List (Str × Str)) : List (List Str) :=
  ps.filterMap fun kv =>
    if truthy kv.1 && truthy kv.2 && decide (pyStrip (getPropOut w kv.1 jail.name) ≠ kv.2)
    then some (setCmd kv.1 kv.2 (identOf jail)) else none

theorem driftedSets_congr {w w' : World} (jail : Jail) {ps : List (Str × Str)}
    (h : ∀ kv ∈ ps, getPropOut w' kv.1 jail.name = getPropOut w kv.1 jail.name) :
    driftedSets w' jail ps = driftedSets w jail ps := by
  induction ps with
  | nil => rfl
  | cons kv rest ih =>
    unfold driftedSets
    rw [List.filterMap_cons, List.filterMap_cons, h kv (List.mem_cons_self _ _)]
    have := ih (fun x hx => h x (List.mem_cons_of_mem kv hx))
    unfold driftedSets at this
    rw [this]

theorem driftedSetCmds_eq (jail : Jail) (ps : List (Str × Str))
    (hnd : (ps.map Prod.fst).Nodup) :
    ∀ w, driftedSetCmds w jail ps = driftedSets w jail ps := by
  induction ps with
  | nil => intro w; rfl
  | cons kv rest ih =>
    intro w
    have hnd' : (rest.map Prod.fst).Nodup := (List.nodup_cons.mp hnd).2
    have hne : ∀ x ∈ rest, x.1 ≠ kv.1 := by
      intro x hx hxeq
      exact (List.nodup_cons.mp hnd).1 (hxeq ▸ List.mem_map_of_mem Prod.fst hx)
    unfold driftedSetCmds driftedSets
    rw [List.filterMap_cons]
    by_cases hc : (truthy kv.1 && truthy kv.2) = true
    · rw [if_pos hc]
      by_cases hd : pyStrip (getPropOut w kv.1 jail.name) = kv.2
      · rw [if_neg (by simpa using hd), if_neg (by simp [hc, hd]), ih hnd' w]
        rfl
      · rw [if_pos hd, if_pos (by simp [hc, hd]),
          ih hnd' (setWorldProp w (identOf jail) kv.1 kv.2),
          driftedSets_congr jail
            (fun x hx => getPropOut_set_ne w (identOf jail) kv.1 kv.2 x.1 jail.name (hne x hx))]
        rfl
    · rw [if_neg hc, if_neg (by simp [hc]), ih hnd' w]
      rfl

theorem driftedSets_shape (w : World) (jail : Jail) (ps : List (Str × Str)) :
    ∀ c ∈ driftedSets w jail ps, ∃ kv : Str × Str, c = setCmd kv.1 kv.2 (identOf jail) := by
  intro c hc
  rcases List.mem_filterMap.mp hc with ⟨kv, _, hkv⟩
  by_cases hg : (truthy kv.1 && truthy kv.2 &&
      decide (pyStrip (getPropOut w kv.1 jail.name) ≠ kv.2)) = true
  · rw [if_pos hg] at hkv
    exact ⟨kv, (Option.some.injEq _ _).mp hkv |>.symm⟩
  · rw [if_neg hg] at hkv
    cases hkv

theorem getPropOut_single {w : World} {j : JailRec} (hjails : w.jails = [j])
    {n : Str} (hn : j.name = n) (k : Str) :
    getPropOut w k n = (lookupAssoc j.props k).getD [] := by
  unfold getPropOut findJail
  rw [hjails]
  simp [hn]

theorem wfProps_setAssoc {l : List (Str × Str)} {k v : Str}
    (hl : wfProps l) (hk : '\n' ∉ k) (hv : '\n' ∉ v) : wfProps (setAssoc l k v) := by
  intro kv hkv
  unfold setAssoc at hkv
  by_cases hc : (l.any fun p => decide (p.1 = k)) = true
  · rw [if_pos hc] at hkv
    rcases List.mem_map.mp hkv with ⟨p, hp, hpe⟩
    by_cases hpk : p.1 = k
    · rw [if_pos hpk] at hpe
      rw [← hpe]
      exact ⟨hk, hv⟩
    · rw [if_neg hpk] at hpe
      rw [← hpe]
      exact hl p hp
  · rw [if_neg hc] at hkv
    rcases List.mem_append.mp hkv with hp | hp
    · exact hl kv hp
    · rcases List.mem_cons.mp hp with rfl | hp2
      · exact ⟨hk, hv⟩
      · cases hp2

theorem wfRec_override {j : JailRec} (h : wfRec j) {st : Str}
    (hst : cleanField st) (pr : List (Str × Str)) :
    wfRec { j with state := st, props := pr } := by
  obtain ⟨h1, h2, h3, _, h5, h6, h7, h8, h9, h10⟩ := h
  exact ⟨h1, h2, h3, hst, h5, h6, h7, h8, h9, h10⟩

theorem spWorld_single (jail : Jail) (hname : truthy jail.name = true)
    (ps : List (Str × Str)) :
    ∀ (wz : World) (j : JailRec), wz.jails = [j] → j.name = jail.name →
    ∃ props', spWorld wz jail ps = { wz with jails := [{ j with props := props' }] } ∧
      (wfProps j.props → (∀ kv ∈ ps, '\n' ∉ kv.1 ∧ '\n' ∉ kv.2) → wfProps props') ∧
      (∀ k', (∀ kv ∈ ps, kv.1 ≠ k') → lookupAssoc props' k' = lookupAssoc j.props k') ∧
      ((ps.map Prod.fst).Nodup → (∀ kv ∈ ps, pyStrip kv.2 = kv.2) →
        ∀ kv ∈ ps, truthy kv.1 = true → truthy kv.2 = true →
          pyStrip ((lookupAssoc props' kv.1).getD []) = kv.2) := by
  induction ps with
  | nil =>
    intro wz j hjails hj
    refine ⟨j.props, ?_, fun hwf _ => hwf, fun k' _ => rfl, fun _ _ kv hkv => absurd hkv (by simp)⟩
    obtain ⟨ap, js, csp⟩ := wz
    simp only at hjails
    subst hjails
    rfl
  | cons kv rest ih =>
    intro wz j hjails hj
    have hjid : j.name = identOf jail := by rw [identOf_name hname]; exact hj
    unfold spWorld
    by_cases hc : (truthy kv.1 && truthy kv.2) = true
    · rw [if_pos hc]
      by_cases hd : pyStrip (getPropOut wz kv.1 jail.name) = kv.2
      · rw [if_neg (by simpa using hd)]
        obtain ⟨props', ha, hwf, hpres, hgood⟩ := ih wz j hjails hj
        refine ⟨props', ha, ?_, ?_, ?_⟩
        · exact fun h1 h2 => hwf h1 (fun x hx => h2 x (List.mem_cons_of_mem kv hx))
        · exact fun k' hk' => hpres k' (fun x hx => hk' x (List.mem_cons_of_mem kv hx))
        · intro hnd hstrip x hx hx1 hx2
          have hnd' : (rest.map Prod.fst).Nodup := (List.nodup_cons.mp hnd).2
          have hstrip' : ∀ y ∈ rest, pyStrip y.2 = y.2 :=
            fun y hy => hstrip y (List.mem_cons_of_mem kv hy)
          rcases List.mem_cons.mp hx with rfl | hx'
          · have hnm : ∀ y ∈ rest, y.1 ≠ x.1 := by
              intro y hy hyeq
              exact (List.nodup_cons.mp hnd).1 (hyeq ▸ List.mem_map_of_mem Prod.fst hy)
            rw [hpres x.1 hnm]
            rw [getPropOut_single hjails hj x.1] at hd
            exact hd
          · exact hgood hnd' hstrip' x hx' hx1 hx2
      · rw [if_pos hd]
        have hwz' : setWorldProp wz (identOf jail) kv.1 kv.2 =
            { wz with jails := [{ j with props := setAssoc j.props kv.1 kv.2 }] } := by
          unfold setWorldProp setJailProp
          rw [hjails]
          simp [hjid]
        rw [hwz']
        obtain ⟨props', ha, hwf, hpres, hgood⟩ :=
          ih { wz with jails := [{ j with props := setAssoc j.props kv.1 kv.2 }] }
            { j with props := setAssoc j.props kv.1 kv.2 } rfl hj
        refine ⟨props', ?_, ?_, ?_, ?_⟩
        · rw [ha]
        · intro h1 h2
          exact hwf (wfProps_setAssoc h1 (h2 kv (List.mem_cons_self _ _)).1
              (h2 kv (List.mem_cons_self _ _)).2)
            (fun x hx => h2 x (List.mem_cons_of_mem kv hx))
        · intro k' hk'
          rw [hpres k' (fun x hx => hk' x (List.mem_cons_of_mem kv hx))]
          exact lookupAssoc_setAssoc_ne j.props kv.1 kv.2 k'
            (fun hkk => hk' kv (List.mem_cons_self _ _) hkk.symm) |>.symm ▸
            (lookupAssoc_setAssoc_ne j.props kv.1 kv.2 k'
              (fun hkk => hk' kv (List.mem_cons_self _ _) hkk.symm))
        · intro hnd hstrip x hx hx1 hx2
          have hnd' : (rest.map Prod.fst).Nodup := (List.nodup_cons.mp hnd).2
          have hstrip' : ∀ y ∈ rest, pyStrip y.2 = y.2 :=
            fun y hy => hstrip y (List.mem_cons_of_mem kv hy)
          rcases List.mem_cons.mp hx with rfl | hx'
          · have hnm : ∀ y ∈ rest, y.1 ≠ x.1 := by
              intro y hy hyeq
              exact (List.nodup_cons.mp hnd).1 (hyeq ▸ List.mem_map_of_mem Prod.fst hy)
            rw [hpres x.1 hnm, lookupAssoc_setAssoc_self j.props x.1 x.2]
            exact hstrip x (List.mem_cons_self _ _)
          · exact hgood hnd' hstrip' x hx' hx1 hx2
    · rw [if_neg hc]
      obtain ⟨props', ha, hwf, hpres, hgood⟩ := ih wz j hjails hj
      refine ⟨props', ha, ?_, ?_, ?_⟩
      · exact fun h1 h2 => hwf h1 (fun x hx => h2 x (List.mem_cons_of_mem kv hx))
      · exact fun k' hk' => hpres k' (fun x hx => hk' x (List.mem_cons_of_mem kv hx))
      · intro hnd hstrip x hx hx1 hx2
        rcases List.mem_cons.mp hx with rfl | hx'
        · exfalso
          apply hc
          rw [hx1, hx2]
          rfl
        · exact hgood (List.nodup_cons.mp hnd).2
            (fun y hy => hstrip y (List.mem_cons_of_mem kv hy)) x hx' hx1 hx2

theorem reconcile_restart_chain (p : Params) (wz : World) (j : JailRec)
    {ps : List (Str × Str)}
    (hstate : p.state = str "started") (hname : truthy p.name = true)
    (hjails : wz.jails = [j]) (hwfj : wfRec j) (hwfp : wfProps j.props)
    (hjname : j.name = p.name) (hup : j.state = str "up")
    (hps : p.properties = some ps)
    (hall : ∀ kv ∈ ps, kv.1 ≠ str "all") (heq : ∀ kv ∈ ps, '=' ∉ kv.1)
    (hnd : (ps.map Prod.fst).Nodup)
    (hwfkv : ∀ kv ∈ ps, '\n' ∉ kv.1 ∧ '\n' ∉ kv.2)
    (hdr : ps.any (driftB wz (mkJail p)) = true) (r1 : ResultR) (t1 : List (List Str)) :
    ∃ r w' tr, reconcile_blocks (mkJail p) r1 ⟨wz, t1⟩ = (.ok r, ⟨w', t1 ++ tr⟩) ∧
      containerActions tr =
        stopCmd (identOf (mkJail p)) ::
          (driftedSets wz (mkJail p) ps ++ [startCmd (identOf (mkJail p))]) := by
  have hname' : truthy (mkJail p).name = true := hname
  have hid : identOf (mkJail p) = p.name := identOf_name hname'
  have hjname' : j.name = (mkJail p).name := hjname
  have hjid : j.name = identOf (mkJail p) := by rw [hid]; exact hjname
  have hw := wfWorld_single hjails hwfj
  have hex : existsB wz (mkJail p) = true := existsB_single hjails hname' hjname'
  have hrun : startedB wz (mkJail p) = true := by
    rw [startedB_single hjails]
    simp [hjname', hup]
  have hstate' : (mkJail p).state = str "started" := hstate
  have hnp : (mkJail p).state ≠ str "present" := by rw [hstate']; decide
  have habs : (mkJail p).state ≠ str "absent" := by rw [hstate']; decide
  have hc : (decide ((mkJail p).state = str "present")
      || decide ((mkJail p).state = str "started")) = true := by simp [hstate']
  have hps' : (mkJail p).properties = some ps := hps
  have hstopjails : (stopServer wz (mkJail p)).jails = [{ j with state := str "down" }] := by
    unfold stopServer updateJailState
    rw [hjails]
    simp [← hjid]
  obtain ⟨props', ha, hwfP, hpres, hgood⟩ :=
    spWorld_single (mkJail p) hname' ps (stopServer wz (mkJail p))
      { j with state := str "down" } hstopjails hjname'
  have hw2jails :
      (startServer (spWorld (stopServer wz (mkJail p)) (mkJail p) ps) (mkJail p)).jails =
        [{ j with state := str "up", props := props' }] := by
    rw [ha]
    unfold startServer updateJailState
    simp [← hjid]
  have hwfj4 : wfRec { j with state := str "up", props := props' } :=
    wfRec_override hwfj (by constructor <;> decide) props'
  have hw2 := wfWorld_single hw2jails hwfj4
  have hex2 : existsB (startServer (spWorld (stopServer wz (mkJail p)) (mkJail p) ps)
      (mkJail p)) (mkJail p) = true :=
    existsB_single hw2jails hname' hjname'
  have hwfp2 : wfProps (jailPropsOf
      (startServer (spWorld (stopServer wz (mkJail p)) (mkJail p) ps) (mkJail p))
      (identOf (mkJail p))) := by
    rw [jailPropsOf_single hw2jails hjid]
    exact hwfP hwfp hwfkv
  obtain ⟨a, hfin⟩ := final_block_found hw2 hex2 hwfp2
    (addMessage { r1 with changed := true } (msgStarted (mkJail p).name))
    (t1 ++ [listCmd] ++ [listCmd] ++ [listCmd] ++ hcTrace wz (mkJail p) ps
      ++ [stopCmd (identOf (mkJail p))] ++ spTrace (stopServer wz (mkJail p)) (mkJail p) ps
      ++ [startCmd (identOf (mkJail p))])
  refine ⟨{ addMessage { r1 with changed := true } (msgStarted (mkJail p).name) with
      attrs := some a },
    startServer (spWorld (stopServer wz (mkJail p)) (mkJail p) ps) (mkJail p),
    [listCmd, listCmd, listCmd] ++ hcTrace wz (mkJail p) ps
      ++ [stopCmd (identOf (mkJail p))]
      ++ spTrace (stopServer wz (mkJail p)) (mkJail p) ps
      ++ [startCmd (identOf (mkJail p))]
      ++ [listCmd, getPoolCmd, getAllCmd (identOf (mkJail p))], ?_, ?_⟩
  · simp only [reconcile_blocks, bind_apply, create_block_found hc hw hex,
      started_block_running hstate' hw hrun,
      restart_block_drift hstate' hw hrun hps' hall heq hdr,
      present_block_skip hnp, absent_block_skip habs]
    rw [hfin]
    simp [List.append_assoc]
  · rw [containerActions_append, containerActions_append, containerActions_append,
        containerActions_append, containerActions_append, containerActions_hcTrace,
        containerActions_spTrace]
    rw [driftedSetCmds_eq (mkJail p) ps hnd]
    unfold stopServer
    rw [driftedSets_congr (mkJail p)
          (fun kv _ => getPropOut_updateState wz (identOf (mkJail p)) (str "down")
            kv.1 (mkJail p).name)]
    simp [containerActions, isContainerAction_listCmd, isContainerAction_stopCmd,
      isContainerAction_startCmd, isContainerAction_getPoolCmd, isContainerAction_getAllCmd,
      List.filter_cons]

/-- C3: a `started` spec applied to a running container with at least
one drifted property executes exactly the container-action sequence
stop, then one set per drifted property, then start — in particular no
set command is ever issued while the container is running, since every
set lies strictly between the stop and the start. -/
theorem started_running_drift_sequence (p : Params) (w : World) (j : JailRec)
    {ps : List (Str × Str)}
    (hstate : p.state = str "started") (hname : truthy p.name = true)
    (hjails : w.jails = [j]) (hwfj : wfRec j) (hwfp : wfProps j.props)
    (hjname : j.name = p.name) (hup : j.state = str "up")
    (hps : p.properties = some ps)
    (hall : ∀ kv ∈ ps, kv.1 ≠ str "all") (heq : ∀ kv ∈ ps, '=' ∉ kv.1)
    (hnd : (ps.map Prod.fst).Nodup)
    (hwfkv : ∀ kv ∈ ps, '\n' ∉ kv.1 ∧ '\n' ∉ kv.2)
    (hdr : ps.any (driftB w (mkJail p)) = true) :
    ∃ r s', run_module p { changed := false, message := [], attrs := none } ⟨w, []⟩ =
        (.ok r, s') ∧
      containerActions s'.trace =
        stopCmd p.name :: (driftedSets w (mkJail p) ps ++ [startCmd p.name]) ∧
      ∀ c ∈ driftedSets w (mkJail p) ps, ∃ kv : Str × Str, c = setCmd kv.1 kv.2 p.name := by
  have hid : identOf (mkJail p) = p.name := identOf_name hname
  have hzp : ∃ tz, zpool_block p.zpool { changed := false, message := [], attrs := none }
        ⟨w, []⟩ =
      (.ok (if truthy p.zpool ∧ pyStrip w.activePool ≠ p.zpool then
          addMessage { changed := true, message := [], attrs := none }
            (msgActivated p.zpool)
        else { changed := false, message := [], attrs := none }),
        ⟨if truthy p.zpool ∧ pyStrip w.activePool ≠ p.zpool then
            { w with activePool := p.zpool } else w, tz⟩) ∧
      containerActions tz = [] := by
    by_cases hz : truthy p.zpool = true
    · by_cases hact : pyStrip w.activePool = p.zpool
      · refine ⟨[getPoolCmd], ?_, by decide⟩
        rw [if_neg (by simp [hact]), if_neg (by simp [hact])]
        exact zpool_block_active hz hact _ []
      · refine ⟨[getPoolCmd, activateCmd p.zpool], ?_,
          by simp [containerActions_cons, isContainerAction_getPoolCmd,
            isContainerAction_activateCmd, containerActions]⟩
        rw [if_pos ⟨hz, hact⟩, if_pos ⟨hz, hact⟩]
        exact zpool_block_inactive hz hact _ []
    · refine ⟨[], ?_, rfl⟩
      rw [if_neg (by simp [hz]), if_neg (by simp [hz])]
      exact zpool_block_skip (by simpa using hz) _ _
  obtain ⟨tz, hz1, hz2⟩ := hzp
  by_cases hcase : truthy p.zpool ∧ pyStrip w.activePool ≠ p.zpool
  · rw [if_pos hcase, if_pos hcase] at hz1
    obtain ⟨r, w', tr, hchain, hacts⟩ :=
      reconcile_restart_chain p { w with activePool := p.zpool } j hstate hname hjails
        hwfj hwfp hjname hup hps hall heq hnd hwfkv hdr
        (addMessage { changed := true, message := [], attrs := none } (msgActivated p.zpool)) tz
    refine ⟨r, ⟨w', tz ++ tr⟩, ?_, ?_, ?_⟩
    · simp only [run_module, bind_apply, hz1]
      exact hchain
    · rw [containerActions_append, hz2, List.nil_append, hacts, hid]
      rfl
    · intro c hcmem
      obtain ⟨kv, hkv⟩ := driftedSets_shape w (mkJail p) ps c hcmem
      exact ⟨kv, by rw [hkv, hid]⟩
  · rw [if_neg hcase, if_neg hcase] at hz1
    obtain ⟨r, w', tr, hchain, hacts⟩ :=
      reconcile_restart_chain p w j hstate hname hjails
        hwfj hwfp hjname hup hps hall heq hnd hwfkv hdr
        { changed := false, message := [], attrs := none } tz
    refine ⟨r, ⟨w', tz ++ tr⟩, ?_, ?_, ?_⟩
    · simp only [run_module, bind_apply, hz1]
      exact hchain
    · rw [containerActions_append, hz2, List.nil_append, hacts, hid]
    · intro c hcmem
      obtain ⟨kv, hkv⟩ := driftedSets_shape w (mkJail p) ps c hcmem
      exact ⟨kv, by rw [hkv, hid]⟩

/-- A concrete spec for `jailFix` with one drifted property and no
pool. -/
def paramsDrift : Params :=
  { zpool := [], name := str "test", uuid := [],
    release := str "12.0-RELEASE", template := [], empty := false,
    state := str "started", properties := some [(str "boot", str "off")] }

/-- Witness for C3: the running `jailFix` with desired `boot=off`
(observed `boot=on`) is reconciled by stop, set, start. -/
theorem started_running_drift_sequence_witness :
    ∃ r s', run_module paramsDrift { changed := false, message := [], attrs := none }
        ⟨worldFix, []⟩ = (.ok r, s') ∧
      containerActions s'.trace =
        stopCmd paramsDrift.name ::
          (driftedSets worldFix (mkJail paramsDrift) [(str "boot", str "off")]
            ++ [startCmd paramsDrift.name]) ∧
      ∀ c ∈ driftedSets worldFix (mkJail paramsDrift) [(str "boot", str "off")],
        ∃ kv : Str × Str, c = setCmd kv.1 kv.2 paramsDrift.name :=
  started_running_drift_sequence paramsDrift worldFix jailFix (by decide) (by decide)
    rfl (by unfold wfRec cleanField; decide) (by unfold wfProps; decide) (by decide)
    (by decide) rfl (by decide) (by decide) (by decide) (by decide) (by decide)

theorem zpool_block_general (z : Str) (r : ResultR) (w : World) :
    ∃ tz, zpool_block z r ⟨w, []⟩ =
      (.ok (if truthy z ∧ pyStrip w.activePool ≠ z then
          addMessage { r with changed := true } (msgActivated z) else r),
        ⟨(if truthy z ∧ pyStrip w.activePool ≠ z then { w with activePool := z } else w),
          tz⟩) ∧
      containerActions tz = [] := by
  by_cases hz : truthy z = true
  · by_cases hact : pyStrip w.activePool = z
    · refine ⟨[getPoolCmd], ?_, by decide⟩
      rw [if_neg (by simp [hact]), if_neg (by simp [hact])]
      exact zpool_block_active hz hact r []
    · refine ⟨[getPoolCmd, activateCmd z], ?_,
        by simp [containerActions_cons, isContainerAction_getPoolCmd,
          isContainerAction_activateCmd, containerActions]⟩
      rw [if_pos ⟨hz, hact⟩, if_pos ⟨hz, hact⟩]
      exact zpool_block_inactive hz hact r []
  · refine ⟨[], ?_, rfl⟩
    rw [if_neg (by simp [hz]), if_neg (by simp [hz])]
    exact zpool_block_skip (by simpa using hz) r ⟨w, []⟩

/-- C4 (amended): for a spec with desired state `absent`, a running
container is reconciled by exactly [stop, destroy], a stopped one by
exactly [destroy], and an absent one by no container action at all —
but `changed` is only guaranteed to stay `false` in the absent case
when the specified storage pool, if any, is already active (an inactive
pool is activated first, which alone sets `changed`). -/
theorem absent_sequences (p : Params) (hstate : p.state = str "absent")
    (hname : truthy p.name = true) :
    (∀ w j, w.jails = [j] → wfRec j → j.name = p.name → j.state = str "up" →
      ∃ r s', run_module p { changed := false, message := [], attrs := none } ⟨w, []⟩ =
          (.ok r, s') ∧
        containerActions s'.trace = [stopCmd p.name, destroyCmd p.name]) ∧
    (∀ w j, w.jails = [j] → wfRec j → j.name = p.name → j.state ≠ str "up" →
      ∃ r s', run_module p { changed := false, message := [], attrs := none } ⟨w, []⟩ =
          (.ok r, s') ∧
        containerActions s'.trace = [destroyCmd p.name]) ∧
    (∀ w, w.jails = [] →
      ∃ r s', run_module p { changed := false, message := [], attrs := none } ⟨w, []⟩ =
          (.ok r, s') ∧
        containerActions s'.trace = [] ∧ (poolConverged p w → r.changed = false)) := by
  have hname' : truthy (mkJail p).name = true := hname
  have hid : identOf (mkJail p) = p.name := identOf_name hname'
  have hstate' : (mkJail p).state = str "absent" := hstate
  have h1 : (mkJail p).state ≠ str "present" := by rw [hstate']; decide
  have h2 : (mkJail p).state ≠ str "started" := by rw [hstate']; decide
  refine ⟨?_, ?_, ?_⟩
  · intro w j hjails hwfj hjname hup
    obtain ⟨tz, hz1, hz2⟩ :=
      zpool_block_general p.zpool { changed := false, message := [], attrs := none } w
    set wz := if truthy p.zpool ∧ pyStrip w.activePool ≠ p.zpool then
      { w with activePool := p.zpool } else w with hwz
    have hwzj : wz.jails = [j] := by
      rw [hwz]
      split <;> exact hjails
    have hw := wfWorld_single hwzj hwfj
    have hex : existsB wz (mkJail p) = true := existsB_single hwzj hname' hjname
    have hrun : startedB wz (mkJail p) = true := by
      rw [startedB_single hwzj]
      simp [hjname, hup, mkJail]
    have hjid : j.name = identOf (mkJail p) := by rw [hid]; exact hjname
    have hgone : (destroyServer (stopServer wz (mkJail p)) (mkJail p)).jails = [] := by
      unfold destroyServer stopServer updateJailState
      rw [hwzj]
      simp [← hjid]
    have hw2 := wfWorld_nil hgone
    have hex2 : existsB (destroyServer (stopServer wz (mkJail p)) (mkJail p))
        (mkJail p) = false := existsB_nil hgone (mkJail p)
    have hmain : run_module p { changed := false, message := [], attrs := none }
        ⟨w, []⟩ =
        (.ok (addMessage { (addMessage { (if truthy p.zpool ∧ pyStrip w.activePool ≠ p.zpool
            then addMessage { changed := true, message := [], attrs := none }
              (msgActivated p.zpool)
            else { changed := false, message := [], attrs := none }) with
              changed := true } (msgStopped (mkJail p).name)) with
            changed := true } (msgDestroyed (mkJail p).name)),
          ⟨destroyServer (stopServer wz (mkJail p)) (mkJail p),
            tz ++ [listCmd, listCmd, stopCmd (identOf (mkJail p)),
              destroyCmd (identOf (mkJail p))] ++ [listCmd]⟩) := by
      simp only [run_module, bind_apply, hz1]
      simp only [reconcile_blocks, bind_apply, create_block_skip h1 h2,
        started_block_skip h2, restart_block_skip h2, present_block_skip h1,
        absent_block_running hstate' hw hex hrun]
      rw [final_block_missing hw2 hex2]
    refine ⟨_, _, hmain, ?_⟩
    show containerActions (tz ++ [listCmd, listCmd, stopCmd (identOf (mkJail p)),
      destroyCmd (identOf (mkJail p))] ++ [listCmd]) = _
    rw [containerActions_append, containerActions_append, hz2, List.nil_append, hid]
    simp [containerActions_cons, isContainerAction_listCmd, isContainerAction_stopCmd,
      isContainerAction_destroyCmd, containerActions]
  · intro w j hjails hwfj hjname hup
    obtain ⟨tz, hz1, hz2⟩ :=
      zpool_block_general p.zpool { changed := false, message := [], attrs := none } w
    set wz := if truthy p.zpool ∧ pyStrip w.activePool ≠ p.zpool then
      { w with activePool := p.zpool } else w with hwz
    have hwzj : wz.jails = [j] := by
      rw [hwz]
      split <;> exact hjails
    have hw := wfWorld_single hwzj hwfj
    have hex : existsB wz (mkJail p) = true := existsB_single hwzj hname' hjname
    have hrun : startedB wz (mkJail p) = false := by
      rw [startedB_single hwzj]
      simp [hup]
    have hjid : j.name = identOf (mkJail p) := by rw [hid]; exact hjname
    have hgone : (destroyServer wz (mkJail p)).jails = [] := by
      unfold destroyServer
      rw [hwzj]
      simp [← hjid]
    have hw2 := wfWorld_nil hgone
    have hex2 : existsB (destroyServer wz (mkJail p)) (mkJail p) = false :=
      existsB_nil hgone (mkJail p)
    have hmain : run_module p { changed := false, message := [], attrs := none }
        ⟨w, []⟩ =
        (.ok (addMessage { (if truthy p.zpool ∧ pyStrip w.activePool ≠ p.zpool
            then addMessage { changed := true, message := [], attrs := none }
              (msgActivated p.zpool)
            else { changed := false, message := [], attrs := none }) with
            changed := true } (msgDestroyed (mkJail p).name)),
          ⟨destroyServer wz (mkJail p),
            tz ++ [listCmd, listCmd, destroyCmd (identOf (mkJail p))] ++ [listCmd]⟩) := by
      simp only [run_module, bind_apply, hz1]
      simp only [reconcile_blocks, bind_apply, create_block_skip h1 h2,
        started_block_skip h2, restart_block_skip h2, present_block_skip h1,
        absent_block_stopped hstate' hw hex hrun]
      rw [final_block_missing hw2 hex2]
    refine ⟨_, _, hmain, ?_⟩
    show containerActions (tz ++ [listCmd, listCmd,
      destroyCmd (identOf (mkJail p))] ++ [listCmd]) = _
    rw [containerActions_append, containerActions_append, hz2, List.nil_append, hid]
    simp [containerActions_cons, isContainerAction_listCmd,
      isContainerAction_destroyCmd, containerActions]
  · intro w hjails
    obtain ⟨tz, hz1, hz2⟩ :=
      zpool_block_general p.zpool { changed := false, message := [], attrs := none } w
    set wz := if truthy p.zpool ∧ pyStrip w.activePool ≠ p.zpool then
      { w with activePool := p.zpool } else w with hwz
    have hwzj : wz.jails = [] := by
      rw [hwz]
      split <;> exact hjails
    have hw := wfWorld_nil hwzj
    have hex : existsB wz (mkJail p) = false := existsB_nil hwzj (mkJail p)
    have hmain : run_module p { changed := false, message := [], attrs := none }
        ⟨w, []⟩ =
        (.ok (if truthy p.zpool ∧ pyStrip w.activePool ≠ p.zpool
            then addMessage { changed := true, message := [], attrs := none }
              (msgActivated p.zpool)
            else { changed := false, message := [], attrs := none }),
          ⟨wz, tz ++ [listCmd] ++ [listCmd]⟩) := by
      simp only [run_module, bind_apply, hz1]
      simp only [reconcile_blocks, bind_apply, create_block_skip h1 h2,
        started_block_skip h2, restart_block_skip h2, present_block_skip h1,
        absent_block_missing hstate' hw hex]
      rw [final_block_missing hw hex]
    refine ⟨_, _, hmain, ?_, ?_⟩
    · show containerActions (tz ++ [listCmd] ++ [listCmd]) = []
      rw [containerActions_append, containerActions_append, hz2, List.nil_append]
      rfl
    · intro hpc
      by_cases hcase : truthy p.zpool ∧ pyStrip w.activePool ≠ p.zpool
      · exact absurd (hpc hcase.1) hcase.2
      · rw [if_neg hcase]

/-- An `absent` spec naming pool `tank` while `zroot` is active. -/
def paramsPoolAbsent : Params :=
  { zpool := str "tank", name := str "j", uuid := [], release := str "12.0",
    template := [], empty := false, state := str "absent", properties := none }

/-- A manager hosting no jails with pool `zroot` active. -/
def worldOtherPool : World :=
  { activePool := str "zroot", jails := [], createSetsProps := true }

/-- Counterexample to C4 as stated: an `absent` spec on a container
observed absent executes no container action, yet `changed` ends up
`true` — the spec's inactive storage pool is activated first and that
alone sets the flag. -/
theorem absent_changed_counterexample :
    run_module paramsPoolAbsent { changed := false, message := [], attrs := none }
        ⟨worldOtherPool, []⟩ =
      (.ok { changed := true, message := str "ZPool tank activated", attrs := none },
        ⟨{ worldOtherPool with activePool := str "tank" },
          [getPoolCmd, activateCmd (str "tank"), listCmd, listCmd]⟩) ∧
    containerActions [getPoolCmd, activateCmd (str "tank"), listCmd, listCmd] = [] := by
  constructor
  · rfl
  · decide

/-- An `absent` spec for `jailFix` with no pool given. -/
def paramsAbsent : Params :=
  { zpool := [], name := str "test", uuid := [], release := [],
    template := [], empty := false, state := str "absent", properties := none }

/-- Witness for the amended C4 at the running `jailFix`: the sequence
is exactly [stop, destroy]. -/
theorem absent_sequences_witness :
    ∃ r s', run_module paramsAbsent { changed := false, message := [], attrs := none }
        ⟨worldFix, []⟩ = (.ok r, s') ∧
      containerActions s'.trace =
        [stopCmd paramsAbsent.name, destroyCmd paramsAbsent.name] :=
  (absent_sequences paramsAbsent (by decide) (by decide)).1 worldFix jailFix rfl
    (by unfold wfRec cleanField; decide) (by decide) (by decide)

/-- The argument list following `iocage create` (lines 255-269). -/
def createArgs (jail : Jail) : List Str :=
  (if truthy jail.name then [str "-n", jail.name] else [])
  ++ (if truthy jail.uuid then [str "-u", jail.uuid] else [])
  ++ (if truthy jail.release then [str "-r", jail.release]
      else if truthy jail.template then [str "-t", jail.template]
      else if jail.empty then [str "-e"] else [])
  ++ (match jail.properties with
      | none => []
      | some ps => ps.filterMap fun kv =>
          if truthy kv.1 && truthy kv.2 then some (kv.1 ++ '=' :: kv.2) else none)

theorem createCmd_args (jail : Jail) : (createCmd jail).tail.tail = createArgs jail := rfl

theorem argAfter_mem {flag x : Str} : ∀ {args : List Str},
    argAfter flag args = some x → x ∈ args := by
  intro args
  induction args with
  | nil => intro h; cases h
  | cons a rest ih =>
    intro h
    cases rest with
    | nil => cases h
    | cons b rest2 =>
      unfold argAfter at h
      by_cases ha : a = flag
      · rw [if_pos ha] at h
        rw [Option.some.injEq] at h
        exact List.mem_cons_of_mem a (h ▸ List.mem_cons_self b rest2)
      · rw [if_neg ha] at h
        exact List.mem_cons_of_mem a (ih h)

theorem cleanField_nil : cleanField [] := by constructor <;> simp

theorem cleanField_argAfter {flag : Str} {args : List Str}
    (h : ∀ a ∈ args, cleanField a) : cleanField ((argAfter flag args).getD []) := by
  cases ha : argAfter flag args with
  | none => exact cleanField_nil
  | some x => exact h x (argAfter_mem ha)

theorem kvArg_of_no_eq {a : Str} (h : '=' ∉ a) : kvArg a = none := by
  unfold kvArg
  rw [if_neg h]

theorem kvArg_pair {k : Str} (v : Str) (h : '=' ∉ k) :
    kvArg (k ++ '=' :: v) = some (k, v) := by
  unfold kvArg
  rw [if_pos (List.mem_append.mpr (Or.inr (List.mem_cons_self _ _))),
    splitFirstOn_sep v h]

/-- The truthy desired pairs, as stored by a manager whose `create`
applies the `prop=value` arguments. -/
def truthyPairs (ps : List (Str × Str)) : List (Str × Str) :=
  ps.filterMap fun kv => if truthy kv.1 && truthy kv.2 then some kv else none

theorem createProps_roundtrip {ps : List (Str × Str)}
    (heq : ∀ kv ∈ ps, '=' ∉ kv.1) :
    (ps.filterMap fun kv =>
      if truthy kv.1 && truthy kv.2 then some (kv.1 ++ '=' :: kv.2) else none).filterMap
        kvArg = truthyPairs ps := by
  induction ps with
  | nil => rfl
  | cons kv rest ih =>
    have hk : '=' ∉ kv.1 := heq kv (List.mem_cons_self _ _)
    have hrest : ∀ x ∈ rest, '=' ∉ x.1 := fun x hx => heq x (List.mem_cons_of_mem kv hx)
    have hrec := ih hrest
    unfold truthyPairs at hrec ⊢
    by_cases hc : (truthy kv.1 && truthy kv.2) = true
    · rw [List.filterMap_cons, if_pos hc, List.filterMap_cons, kvArg_pair kv.2 hk,
        List.filterMap_cons, if_pos hc]
      exact congrArg (List.cons kv) hrec
    · rw [List.filterMap_cons, if_neg hc, List.filterMap_cons, if_neg hc]
      exact hrec

theorem lookupAssoc_truthyPairs {ps : List (Str × Str)}
    (hnd : (ps.map Prod.fst).Nodup) :
    ∀ kv ∈ ps, truthy kv.1 = true → truthy kv.2 = true →
      lookupAssoc (truthyPairs ps) kv.1 = some kv.2 := by
  induction ps with
  | nil => intro kv hkv; cases hkv
  | cons p rest ih =>
    intro kv hkv h1 h2
    have hnd' : (rest.map Prod.fst).Nodup := (List.nodup_cons.mp hnd).2
    have hnotin : p.1 ∉ rest.map Prod.fst := (List.nodup_cons.mp hnd).1
    unfold truthyPairs
    rw [List.filterMap_cons]
    rcases List.mem_cons.mp hkv with rfl | hkv'
    · rw [if_pos (by rw [h1, h2]; rfl)]
      unfold lookupAssoc
      rw [List.find?_cons_of_pos _ (by simp)]
      rfl
    · have hne : p.1 ≠ kv.1 := by
        intro hp
        exact hnotin (hp ▸ List.mem_map_of_mem Prod.fst hkv')
      have hrec := ih hnd' kv hkv' h1 h2
      unfold truthyPairs at hrec
      by_cases hc : (truthy p.1 && truthy p.2) = true
      · rw [if_pos hc]
        unfold lookupAssoc at hrec ⊢
        rw [List.find?_cons_of_neg _ (by simp [hne])]
        exact hrec
      · rw [if_neg hc]
        exact hrec

theorem createArgs_eq {p : Params} (hname : truthy p.name = true)
    (huuid : p.uuid = []) (hrel : truthy p.release = true)
    {ps : List (Str × Str)} (hps : p.properties = some ps) :
    createArgs (mkJail p) = str "-n" :: p.name :: str "-r" :: p.release ::
      ps.filterMap (fun kv =>
        if truthy kv.1 && truthy kv.2 then some (kv.1 ++ '=' :: kv.2) else none) := by
  show (if truthy p.name then [str "-n", p.name] else [])
      ++ (if truthy p.uuid then [str "-u", p.uuid] else [])
      ++ (if truthy p.release then [str "-r", p.release]
          else if truthy p.template then [str "-t", p.template]
          else if p.empty then [str "-e"] else [])
      ++ (match p.properties with
          | none => []
          | some ps => ps.filterMap fun kv =>
              if truthy kv.1 && truthy kv.2 then some (kv.1 ++ '=' :: kv.2) else none) = _
  rw [if_pos hname, huuid, if_pos hrel, hps]
  rfl

theorem createdJail_name {p : Params} (hname : truthy p.name = true)
    (huuid : p.uuid = []) (hrel : truthy p.release = true)
    {ps : List (Str × Str)} (hps : p.properties = some ps) (csp : Bool) :
    (createdJail csp (createArgs (mkJail p))).name = p.name := by
  show (argAfter (str "-n") (createArgs (mkJail p))).getD [] = p.name
  rw [createArgs_eq hname huuid hrel hps]
  rfl

theorem createdJail_props {p : Params} (hname : truthy p.name = true)
    (huuid : p.uuid = []) (hrel : truthy p.release = true)
    {ps : List (Str × Str)} (hps : p.properties = some ps)
    (heqn : '=' ∉ p.name) (heqr : '=' ∉ p.release)
    (heq : ∀ kv ∈ ps, '=' ∉ kv.1) (csp : Bool) :
    (createdJail csp (createArgs (mkJail p))).props =
      (if csp then truthyPairs ps else []) := by
  show (if csp then (createArgs (mkJail p)).filterMap kvArg else []) = _
  rw [createArgs_eq hname huuid hrel hps]
  cases csp
  · rfl
  · show List.filterMap kvArg (str "-n" :: p.name :: str "-r" :: p.release ::
        ps.filterMap (fun kv =>
          if truthy kv.1 && truthy kv.2 then some (kv.1 ++ '=' :: kv.2) else none)) =
      truthyPairs ps
    simp only [List.filterMap_cons, kvArg_of_no_eq (show ('=' ∉ str "-n") by decide),
      kvArg_of_no_eq heqn, kvArg_of_no_eq (show ('=' ∉ str "-r") by decide),
      kvArg_of_no_eq heqr]
    exact createProps_roundtrip heq

theorem truthyPairs_subset {ps : List (Str × Str)} : ∀ kv ∈ truthyPairs ps, kv ∈ ps := by
  intro kv hkv
  rcases List.mem_filterMap.mp hkv with ⟨x, hx, hout⟩
  by_cases hc : (truthy x.1 && truthy x.2) = true
  · rw [if_pos hc, Option.some.injEq] at hout
    exact hout ▸ hx
  · rw [if_neg hc] at hout
    cases hout

theorem wfRec_createdJail {p : Params} (hname : truthy p.name = true)
    (huuid : p.uuid = []) (hrel : truthy p.release = true)
    {ps : List (Str × Str)} (hps : p.properties = some ps)
    (hcn : cleanField p.name) (hcr : cleanField p.release)
    (hwfkv : ∀ kv ∈ ps, cleanField kv.1 ∧ cleanField kv.2) (csp : Bool) :
    wfRec (createdJail csp (createArgs (mkJail p))) := by
  have hargs : ∀ a ∈ createArgs (mkJail p), cleanField a := by
    rw [createArgs_eq hname huuid hrel hps]
    intro a ha
    rcases List.mem_cons.mp ha with rfl | ha
    · exact (by constructor <;> decide)
    rcases List.mem_cons.mp ha with rfl | ha
    · exact hcn
    rcases List.mem_cons.mp ha with rfl | ha
    · exact (by constructor <;> decide)
    rcases List.mem_cons.mp ha with rfl | ha
    · exact hcr
    rcases List.mem_filterMap.mp ha with ⟨kv, hkv, hout⟩
    by_cases hc : (truthy kv.1 && truthy kv.2) = true
    · rw [if_pos hc, Option.some.injEq] at hout
      obtain ⟨h1, h2⟩ := hwfkv kv hkv
      refine hout ▸ ⟨?_, ?_⟩
      · exact not_mem_append_cons (by decide) h1.1 h2.1
      · exact not_mem_append_cons (by decide) h1.2 h2.2
    · rw [if_neg hc] at hout
      cases hout
  have hdash : cleanField (str "-") := by constructor <;> decide
  have hoff : cleanField (str "off") := by constructor <;> decide
  have hdown : cleanField (str "down") := by constructor <;> decide
  have hjailT : cleanField (str "jail") := by constructor <;> decide
  exact ⟨hdash, cleanField_argAfter hargs, hoff, hdown, hjailT, cleanField_argAfter hargs,
    hdash, hdash, hdash, hdash⟩

theorem nodrift_of_matching {w : World} {j : JailRec} {jail : Jail}
    (hjails : w.jails = [j]) (hname : truthy jail.name = true)
    (hjname : j.name = jail.name) {ps : List (Str × Str)}
    (hmatch : ∀ kv ∈ ps, truthy kv.1 = true → truthy kv.2 = true →
      pyStrip ((lookupAssoc j.props kv.1).getD []) = kv.2) :
    ps.any (driftB w jail) = false := by
  rw [List.any_eq_false]
  intro kv hkv
  unfold driftB
  rw [identOf_name hname, getPropOut_single hjails hjname]
  by_cases h1 : truthy kv.1 = true
  · by_cases h2 : truthy kv.2 = true
    · simp [hmatch kv hkv h1 h2]
    · simp [h2]
  · simp [h1]

theorem any_driftB_startServer (w : World) (jail : Jail) (ps : List (Str × Str)) :
    ps.any (driftB (startServer w jail) jail) = ps.any (driftB w jail) := by
  induction ps with
  | nil => rfl
  | cons kv rest ih =>
    rw [List.any_cons, List.any_cons, ih]
    unfold driftB startServer
    rw [getPropOut_updateState]

theorem reconcile_create_start_chain (p : Params) (wz : World)
    {ps : List (Str × Str)}
    (hstate : p.state = str "started") (hname : truthy p.name = true)
    (hjails : wz.jails = [])
    (huuid : p.uuid = []) (hrel : truthy p.release = true)
    (hcn : cleanField p.name) (hcr : cleanField p.release)
    (heqn : '=' ∉ p.name) (heqr : '=' ∉ p.release)
    (hps : p.properties = some ps)
    (hall : ∀ kv ∈ ps, kv.1 ≠ str "all") (heq : ∀ kv ∈ ps, '=' ∉ kv.1)
    (hnd : (ps.map Prod.fst).Nodup)
    (hwfkv : ∀ kv ∈ ps, cleanField kv.1 ∧ cleanField kv.2)
    (hstrip : ∀ kv ∈ ps, pyStrip kv.2 = kv.2)
    (r1 : ResultR) (t1 : List (List Str)) :
    ∃ r w' tr setsPart,
      reconcile_blocks (mkJail p) r1 ⟨wz, t1⟩ = (.ok r, ⟨w', t1 ++ tr⟩) ∧
      containerActions tr =
        createCmd (mkJail p) :: (setsPart ++ [startCmd (identOf (mkJail p))]) ∧
      ∀ c ∈ setsPart, ∃ kv : Str × Str, c = setCmd kv.1 kv.2 (identOf (mkJail p)) := by
  have hname' : truthy (mkJail p).name = true := hname
  have hstate' : (mkJail p).state = str "started" := hstate
  have hnp : (mkJail p).state ≠ str "present" := by rw [hstate']; decide
  have habs : (mkJail p).state ≠ str "absent" := by rw [hstate']; decide
  have hc : (decide ((mkJail p).state = str "present")
      || decide ((mkJail p).state = str "started")) = true := by simp [hstate']
  have hps' : (mkJail p).properties = some ps := hps
  have hid : identOf (mkJail p) = p.name := identOf_name hname'
  have hw0 : wfWorld wz := wfWorld_nil hjails
  have hex0 : existsB wz (mkJail p) = false := existsB_nil hjails (mkJail p)
  have hcwjails : (createServer wz (mkJail p)).jails =
      [createdJail wz.createSetsProps (createArgs (mkJail p))] := by
    show wz.jails ++ [createdJail wz.createSetsProps (createCmd (mkJail p)).tail.tail] = _
    rw [createCmd_args, hjails]
    rfl
  have hcjname : (createdJail wz.createSetsProps (createArgs (mkJail p))).name
      = (mkJail p).name := createdJail_name hname huuid hrel hps wz.createSetsProps
  have hcjid : (createdJail wz.createSetsProps (createArgs (mkJail p))).name
      = identOf (mkJail p) := by rw [hid]; exact hcjname
  have hwfcj : wfRec (createdJail wz.createSetsProps (createArgs (mkJail p))) :=
    wfRec_createdJail hname huuid hrel hps hcn hcr hwfkv wz.createSetsProps
  have hwfcp : wfProps (createdJail wz.createSetsProps (createArgs (mkJail p))).props := by
    rw [createdJail_props hname huuid hrel hps heqn heqr heq]
    by_cases hcsp : wz.createSetsProps = true
    · rw [if_pos hcsp]
      intro kv hkv
      obtain ⟨h1, h2⟩ := hwfkv kv (truthyPairs_subset kv hkv)
      exact ⟨h1.2, h2.2⟩
    · rw [if_neg hcsp]
      intro kv hkv
      cases hkv
  have hwfkv2 : ∀ kv ∈ ps, '\n' ∉ kv.1 ∧ '\n' ∉ kv.2 :=
    fun kv hkv => ⟨(hwfkv kv hkv).1.2, (hwfkv kv hkv).2.2⟩
  have hwcw : wfWorld (createServer wz (mkJail p)) := wfWorld_single hcwjails hwfcj
  have hrun2 : startedB (createServer wz (mkJail p)) (mkJail p) = false := by
    rw [startedB_single hcwjails,
      show (createdJail wz.createSetsProps (createArgs (mkJail p))).state = str "down" from rfl]
    simp [(show ¬ (str "down" = str "up") by decide)]
  by_cases hdr : ps.any (driftB (createServer wz (mkJail p)) (mkJail p)) = true
  · obtain ⟨props', ha, hwfP, hpres, hgood⟩ :=
      spWorld_single (mkJail p) hname' ps (createServer wz (mkJail p))
        (createdJail wz.createSetsProps (createArgs (mkJail p))) hcwjails hcjname
    have hw4jails : (startServer (spWorld (createServer wz (mkJail p)) (mkJail p) ps)
        (mkJail p)).jails =
        [{ createdJail wz.createSetsProps (createArgs (mkJail p)) with
            state := str "up", props := props' }] := by
      rw [ha]
      unfold startServer updateJailState
      simp [← hcjid]
    have hwfcj4 : wfRec { createdJail wz.createSetsProps (createArgs (mkJail p)) with
        state := str "up", props := props' } :=
      wfRec_override hwfcj (by constructor <;> decide) props'
    have hw4 := wfWorld_single hw4jails hwfcj4
    have hrun4 : startedB (startServer (spWorld (createServer wz (mkJail p)) (mkJail p) ps)
        (mkJail p)) (mkJail p) = true := by
      rw [startedB_single hw4jails]
      simp [hcjname]
    have hnod4 : ps.any (driftB (startServer (spWorld (createServer wz (mkJail p)) (mkJail p) ps)
        (mkJail p)) (mkJail p)) = false := by
      rw [any_driftB_startServer]
      have hspj : (spWorld (createServer wz (mkJail p)) (mkJail p) ps).jails =
          [{ createdJail wz.createSetsProps (createArgs (mkJail p)) with props := props' }] := by
        rw [ha]
      exact nodrift_of_matching hspj hname' hcjname (hgood hnd hstrip)
    have hex4 : existsB (startServer (spWorld (createServer wz (mkJail p)) (mkJail p) ps)
        (mkJail p)) (mkJail p) = true := existsB_single hw4jails hname' hcjname
    have hwfp4 : wfProps (jailPropsOf
        (startServer (spWorld (createServer wz (mkJail p)) (mkJail p) ps) (mkJail p))
        (identOf (mkJail p))) := by
      rw [jailPropsOf_single hw4jails hcjid]
      exact hwfP hwfcp hwfkv2
    obtain ⟨a, hfin⟩ := final_block_found hw4 hex4 hwfp4
      (addMessage { addMessage { r1 with changed := true } (msgCreated (mkJail p).name) with
          changed := true } (msgStarted (mkJail p).name))
      (t1 ++ [listCmd, createCmd (mkJail p)] ++ [listCmd]
        ++ hcTrace (createServer wz (mkJail p)) (mkJail p) ps
        ++ spTrace (createServer wz (mkJail p)) (mkJail p) ps
        ++ [startCmd (identOf (mkJail p))] ++ [listCmd]
        ++ hcTrace (startServer (spWorld (createServer wz (mkJail p)) (mkJail p) ps)
            (mkJail p)) (mkJail p) ps)
    refine ⟨{ addMessage { addMessage { r1 with changed := true }
          (msgCreated (mkJail p).name) with changed := true }
          (msgStarted (mkJail p).name) with attrs := some a },
      startServer (spWorld (createServer wz (mkJail p)) (mkJail p) ps) (mkJail p),
      [listCmd, createCmd (mkJail p)] ++ [listCmd]
        ++ hcTrace (createServer wz (mkJail p)) (mkJail p) ps
        ++ spTrace (createServer wz (mkJail p)) (mkJail p) ps
        ++ [startCmd (identOf (mkJail p))] ++ [listCmd]
        ++ hcTrace (startServer (spWorld (createServer wz (mkJail p)) (mkJail p) ps)
            (mkJail p)) (mkJail p) ps
        ++ [listCmd, getPoolCmd, getAllCmd (identOf (mkJail p))],
      driftedSets (createServer wz (mkJail p)) (mkJail p) ps, ?_, ?_, ?_⟩
    · simp only [reconcile_blocks, bind_apply, create_block_missing hc hw0 hex0,
        started_block_drift hstate' hwcw hrun2 hps' hall heq hdr,
        restart_block_nodrift hstate' hw4 hrun4 hps' hall hnod4,
        present_block_skip hnp, absent_block_skip habs]
      rw [hfin]
      simp [List.append_assoc]
    · rw [containerActions_append, containerActions_append, containerActions_append,
        containerActions_append, containerActions_append, containerActions_append,
        containerActions_append, containerActions_hcTrace, containerActions_hcTrace,
        containerActions_spTrace, driftedSetCmds_eq (mkJail p) ps hnd]
      simp [containerActions, List.filter_cons, isContainerAction_listCmd,
        isContainerAction_createCmd, isContainerAction_startCmd,
        isContainerAction_getPoolCmd, isContainerAction_getAllCmd]
    · exact driftedSets_shape (createServer wz (mkJail p)) (mkJail p) ps
  · have hdrF : ps.any (driftB (createServer wz (mkJail p)) (mkJail p)) = false := by
      cases hx : ps.any (driftB (createServer wz (mkJail p)) (mkJail p))
      · rfl
      · exact absurd hx hdr
    have hw3jails : (startServer (createServer wz (mkJail p)) (mkJail p)).jails =
        [{ createdJail wz.createSetsProps (createArgs (mkJail p)) with state := str "up" }] := by
      unfold startServer updateJailState
      rw [hcwjails]
      simp [← hcjid]
    have hwfcj3 : wfRec { createdJail wz.createSetsProps (createArgs (mkJail p)) with
        state := str "up" } := wfRec_override hwfcj (by constructor <;> decide)
      (createdJail wz.createSetsProps (createArgs (mkJail p))).props
    have hw3 := wfWorld_single hw3jails hwfcj3
    have hrun3 : startedB (startServer (createServer wz (mkJail p)) (mkJail p))
        (mkJail p) = true := by
      rw [startedB_single hw3jails]
      simp [hcjname]
    have hnod3 : ps.any (driftB (startServer (createServer wz (mkJail p)) (mkJail p))
        (mkJail p)) = false := by
      rw [any_driftB_startServer]
      exact hdrF
    have hex3 : existsB (startServer (createServer wz (mkJail p)) (mkJail p))
        (mkJail p) = true := existsB_single hw3jails hname' hcjname
    have hwfp3 : wfProps (jailPropsOf (startServer (createServer wz (mkJail p)) (mkJail p))
        (identOf (mkJail p))) := by
      rw [jailPropsOf_single hw3jails hcjid]
      exact hwfcp
    obtain ⟨a, hfin⟩ := final_block_found hw3 hex3 hwfp3
      (addMessage { addMessage { r1 with changed := true } (msgCreated (mkJail p).name) with
          changed := true } (msgStarted (mkJail p).name))
      (t1 ++ [listCmd, createCmd (mkJail p)] ++ [listCmd]
        ++ hcTrace (createServer wz (mkJail p)) (mkJail p) ps
        ++ [startCmd (identOf (mkJail p))] ++ [listCmd]
        ++ hcTrace (startServer (createServer wz (mkJail p)) (mkJail p)) (mkJail p) ps)
    refine ⟨{ addMessage { addMessage { r1 with changed := true }
          (msgCreated (mkJail p).name) with changed := true }
          (msgStarted (mkJail p).name) with attrs := some a },
      startServer (createServer wz (mkJail p)) (mkJail p),
      [listCmd, createCmd (mkJail p)] ++ [listCmd]
        ++ hcTrace (createServer wz (mkJail p)) (mkJail p) ps
        ++ [startCmd (identOf (mkJail p))] ++ [listCmd]
        ++ hcTrace (startServer (createServer wz (mkJail p)) (mkJail p)) (mkJail p) ps
        ++ [listCmd, getPoolCmd, getAllCmd (identOf (mkJail p))],
      [], ?_, ?_, ?_⟩
    · simp only [reconcile_blocks, bind_apply, create_block_missing hc hw0 hex0,
        started_block_nodrift hstate' hwcw hrun2 hps' hall hdrF,
        restart_block_nodrift hstate' hw3 hrun3 hps' hall hnod3,
        present_block_skip hnp, absent_block_skip habs]
      rw [hfin]
      simp [List.append_assoc]
    · rw [containerActions_append, containerActions_append, containerActions_append,
        containerActions_append, containerActions_append, containerActions_append,
        containerActions_hcTrace, containerActions_hcTrace]
      simp [containerActions, List.filter_cons, isContainerAction_listCmd,
        isContainerAction_createCmd, isContainerAction_startCmd,
        isContainerAction_getPoolCmd, isContainerAction_getAllCmd]
    · intro c hcm
      cases hcm

/-- C5 (amended): a `started` spec applied to a container observed
absent executes the container-action sequence create, then zero or more
property-set commands, then start, with every needed set strictly
between the create and the start and nothing at all after the start —
provided every desired property value is strip-invariant (`hstrip`).
The proviso is necessary: a value with leading or trailing whitespace
never equals the stripped readback the drift test compares against, so
the restart cycle fires once more after the first start (see the
counterexample below). -/
theorem absent_started_sequence (p : Params) (w : World)
    {ps : List (Str × Str)}
    (hstate : p.state = str "started") (hname : truthy p.name = true)
    (hjails : w.jails = [])
    (huuid : p.uuid = []) (hrel : truthy p.release = true)
    (hcn : cleanField p.name) (hcr : cleanField p.release)
    (heqn : '=' ∉ p.name) (heqr : '=' ∉ p.release)
    (hps : p.properties = some ps)
    (hall : ∀ kv ∈ ps, kv.1 ≠ str "all") (heq : ∀ kv ∈ ps, '=' ∉ kv.1)
    (hnd : (ps.map Prod.fst).Nodup)
    (hwfkv : ∀ kv ∈ ps, cleanField kv.1 ∧ cleanField kv.2)
    (hstrip : ∀ kv ∈ ps, pyStrip kv.2 = kv.2) :
    ∃ r s' setsPart,
      run_module p { changed := false, message := [], attrs := none } ⟨w, []⟩ =
        (.ok r, s') ∧
      containerActions s'.trace =
        createCmd (mkJail p) :: (setsPart ++ [startCmd p.name]) ∧
      ∀ c ∈ setsPart, ∃ kv : Str × Str, c = setCmd kv.1 kv.2 p.name := by
  have hid : identOf (mkJail p) = p.name := identOf_name hname
  obtain ⟨tz, hz1, hz2⟩ := zpool_block_general p.zpool
    { changed := false, message := [], attrs := none } w
  by_cases hcase : truthy p.zpool ∧ pyStrip w.activePool ≠ p.zpool
  · rw [if_pos hcase, if_pos hcase] at hz1
    obtain ⟨r, w', tr, setsPart, hchain, hacts, hshape⟩ :=
      reconcile_create_start_chain p { w with activePool := p.zpool } hstate hname
        hjails huuid hrel hcn hcr heqn heqr hps hall heq hnd hwfkv hstrip
        (addMessage { changed := true, message := [], attrs := none } (msgActivated p.zpool)) tz
    refine ⟨r, ⟨w', tz ++ tr⟩, setsPart, ?_, ?_, ?_⟩
    · simp only [run_module, bind_apply, hz1]
      exact hchain
    · rw [containerActions_append, hz2, List.nil_append, hacts, hid]
    · intro c hcm
      obtain ⟨kv, hkv⟩ := hshape c hcm
      exact ⟨kv, by rw [hkv, hid]⟩
  · rw [if_neg hcase, if_neg hcase] at hz1
    obtain ⟨r, w', tr, setsPart, hchain, hacts, hshape⟩ :=
      reconcile_create_start_chain p w hstate hname
        hjails huuid hrel hcn hcr heqn heqr hps hall heq hnd hwfkv hstrip
        { changed := false, message := [], attrs := none } tz
    refine ⟨r, ⟨w', tz ++ tr⟩, setsPart, ?_, ?_, ?_⟩
    · simp only [run_module, bind_apply, hz1]
      exact hchain
    · rw [containerActions_append, hz2, List.nil_append, hacts, hid]
    · intro c hcm
      obtain ⟨kv, hkv⟩ := hshape c hcm
      exact ⟨kv, by rw [hkv, hid]⟩

/-- A manager state hosting no jail at all, on pool `zroot`. -/
def worldEmpty : World :=
  { activePool := str "zroot", jails := [], createSetsProps := true }

/-- Witness for C5: the absent `test` jail with desired state `started`
is reconciled by create, property sets in between, then start. -/
theorem absent_started_sequence_witness :
    ∃ r s' setsPart,
      run_module paramsFix { changed := false, message := [], attrs := none }
        ⟨worldEmpty, []⟩ = (.ok r, s') ∧
      containerActions s'.trace =
        createCmd (mkJail paramsFix) :: (setsPart ++ [startCmd paramsFix.name]) ∧
      ∀ c ∈ setsPart, ∃ kv : Str × Str, c = setCmd kv.1 kv.2 paramsFix.name :=
  absent_started_sequence paramsFix worldEmpty (by decide) (by decide) rfl rfl
    (by decide) (by unfold cleanField; decide) (by unfold cleanField; decide)
    (by decide) (by decide) rfl (by decide) (by decide) (by decide)
    (by unfold cleanField; decide) (by decide)

/-- C2: refutation of the malformed-row tolerance claim. A listing whose
second row has fewer than ten tab-delimited fields makes
`_parse_list_output` raise an uncaught `IndexError` instead of skipping
the row, so the well-formed first row of the same listing — parsed fine
on its own — is lost with it. -/
theorem malformed_row_raises :
    parse_list_output (renderRow jailFix ++ '\n' :: str "bad row") =
      .error .indexError ∧
    parse_list_output (renderRow jailFix) = .ok [rowOf jailFix] := ⟨rfl, rfl⟩

/-- C8: on the property line `k:a:b` the stored value is `a`, the
segment between the first and second colons, not the whole remainder
`a:b` after the first colon. -/
theorem add_line_counterexample :
    add_line_to_properties [] (str "k:a:b") = .ok [(str "k", str "a")] ∧
    str "a" ≠ str "a:b" := ⟨rfl, by decide⟩

/-- C8 (amended): `_add_line_to_properties` splits the line on every
colon and stores `items[1]`: the value recorded under the key is the
segment between the first and the second colon, and only for a line
with no second colon is that the whole remainder after the first. -/
theorem add_line_stores_second_field (properties : List (Str × Str)) (k v rest : Str)
    (hk : ':' ∉ k) (hv : ':' ∉ v) :
    add_line_to_properties properties (k ++ ':' :: (v ++ ':' :: rest)) =
      .ok (setAssoc properties k v) ∧
    add_line_to_properties properties (k ++ ':' :: v) = .ok (setAssoc properties k v) := by
  constructor
  · unfold add_line_to_properties
    rw [splitCh_append _ hk, splitCh_append _ hv]
  · unfold add_line_to_properties
    rw [splitCh_append _ hk, splitCh_of_not_mem hv]

/-- Witness for C8 at the line `k:a:b` (and `k:a`). -/
theorem add_line_stores_second_field_witness :
    add_line_to_properties [] (str "k" ++ ':' :: (str "a" ++ ':' :: str "b")) =
      .ok (setAssoc [] (str "k") (str "a")) ∧
    add_line_to_properties [] (str "k" ++ ':' :: str "a") =
      .ok (setAssoc [] (str "k") (str "a")) :=
  add_line_stores_second_field [] (str "k") (str "a") (str "b") (by decide) (by decide)

/-- C6: the host framework accepts the parameter set exactly when
exactly one of release, template, empty is set; on a violation the
module reports a validation error with the world untouched and not a
single external command executed. -/
theorem main_validation (p : Params) (checkMode : Bool) (w : World) :
    ((main_model p checkMode w).1 = Outcome.validationError
      ↔ exactlyOneProvision p = false) ∧
    (exactlyOneProvision p = false →
      main_model p checkMode w = (Outcome.validationError, w, [])) := by
  have hfalse : exactlyOneProvision p = false →
      main_model p checkMode w = (Outcome.validationError, w, []) := by
    intro h
    unfold main_model
    rw [h]
    rfl
  refine ⟨⟨?_, fun h => by rw [hfalse h]⟩, hfalse⟩
  intro h
  cases hv : exactlyOneProvision p
  · rfl
  · exfalso
    unfold main_model at h
    rw [hv] at h
    rw [if_neg (by decide)] at h
    by_cases hcm : checkMode = true
    · rw [if_pos hcm] at h
      exact Outcome.noConfusion h
    · rw [if_neg hcm] at h
      rcases hrun : run_module p { changed := false, message := [], attrs := none } ⟨w, []⟩
        with ⟨res, s⟩
      rw [hrun] at h
      cases res with
      | ok r => exact Outcome.noConfusion h
      | error e => exact Outcome.noConfusion h

/-- A parameter set with two provisioning sources (release and
template) set at once. -/
def paramsBad : Params :=
  { paramsFix with template := str "tmpl" }

/-- Witness for C6: the double-provisioned spec is rejected with no
world change and no executed command. -/
theorem main_validation_witness :
    exactlyOneProvision paramsBad = false ∧
    main_model paramsBad false worldFix = (Outcome.validationError, worldFix, []) :=
  ⟨by decide, (main_validation paramsBad false worldFix).2 (by decide)⟩

/-- C10: invoked in check mode the module returns at once: the world is
unmodified, no manager command is executed, and — when the parameters
pass validation — the reported result is changed=false with an empty
message. -/
theorem main_check_mode (p : Params) (w : World) :
    (main_model p true w).2 = (w, []) ∧
    (exactlyOneProvision p = true →
      main_model p true w =
        (Outcome.checkModeExit { changed := false, message := [], attrs := none },
          w, [])) := by
  constructor
  · unfold main_model
    cases hv : exactlyOneProvision p
    · rfl
    · rfl
  · intro h
    unfold main_model
    rw [h]
    rfl

/-- Witness for C10 at the concrete valid spec and hosted world. -/
theorem main_check_mode_witness :
    (main_model paramsFix true worldFix).2 = (worldFix, []) ∧
    main_model paramsFix true worldFix =
      (Outcome.checkModeExit { changed := false, message := [], attrs := none },
        worldFix, []) :=
  ⟨(main_check_mode paramsFix worldFix).1,
    (main_check_mode paramsFix worldFix).2 (by decide)⟩

theorem spTrace_targets (jail : Jail) (hname : truthy jail.name = true)
    (ps : List (Str × Str)) : ∀ w, ∀ c ∈ spTrace w jail ps,
    (∃ kv : Str × Str, c = getCmd kv.1 jail.name) ∨
    (∃ kv : Str × Str, c = setCmd kv.1 kv.2 jail.name) := by
  induction ps with
  | nil =>
    intro w c hc
    cases hc
  | cons kv rest ih =>
    intro w c hc
    unfold spTrace at hc
    by_cases hcnd : (truthy kv.1 && truthy kv.2) = true
    · rw [if_pos hcnd] at hc
      by_cases hd : pyStrip (getPropOut w kv.1 jail.name) ≠ kv.2
      · rw [if_pos hd] at hc
        rcases List.mem_cons.mp hc with rfl | hc2
        · exact Or.inl ⟨kv, rfl⟩
        rcases List.mem_cons.mp hc2 with rfl | hc3
        · exact Or.inr ⟨kv, by rw [identOf_name hname]⟩
        · exact ih (setWorldProp w (identOf jail) kv.1 kv.2) c hc3
      · rw [if_neg hd] at hc
        rcases List.mem_cons.mp hc with rfl | hc2
        · exact Or.inl ⟨kv, rfl⟩
        · exact ih w c hc2
    · rw [if_neg hcnd] at hc
      exact ih w c hc

/-- C9: with `name` set and `uuid` unset, the unique handle every
targeting command uses is the name — `name if name else uuid` evaluates
to the name — so start, stop and destroy address the jail by name, the
existence check matches listed rows by name, and every get and set
command of the property-reconciliation protocol addresses it by name. -/
theorem addressed_by_name (jail : Jail) (hname : truthy jail.name = true)
    (_huuid : jail.uuid = []) (w : World) (t : List (List Str)) (hw : wfWorld w) :
    identOf jail = jail.name ∧
    start jail ⟨w, t⟩ = (.ok (), ⟨startServer w jail, t ++ [startCmd jail.name]⟩) ∧
    stop jail ⟨w, t⟩ = (.ok (), ⟨stopServer w jail, t ++ [stopCmd jail.name]⟩) ∧
    destroy jail ⟨w, t⟩ =
      (.ok (), ⟨destroyServer w jail, t ++ [destroyCmd jail.name]⟩) ∧
    exists_ jail ⟨w, t⟩ =
      (.ok ((w.jails.map rowOf).any fun line => decide (line.name = jail.name)),
        ⟨w, t ++ [listCmd]⟩) ∧
    ∀ ps, ∀ c ∈ spTrace w jail ps,
      (∃ kv : Str × Str, c = getCmd kv.1 jail.name) ∨
      (∃ kv : Str × Str, c = setCmd kv.1 kv.2 jail.name) := by
  have hid : identOf jail = jail.name := identOf_name hname
  refine ⟨hid, ?_, ?_, ?_, ?_, fun ps => spTrace_targets jail hname ps w⟩
  · rw [start_apply]
    unfold startServer
    rw [hid]
  · rw [stop_apply]
    unfold stopServer
    rw [hid]
  · rw [destroy_apply]
    unfold destroyServer
    rw [hid]
  · rw [exists_apply jail w hw]
    have hB : existsB w jail =
        ((w.jails.map rowOf).any fun line => decide (line.name = jail.name)) := by
      unfold existsB
      simp [hname]
    rw [hB]

/-- Witness for C9 at the concrete named spec and hosted world. -/
theorem addressed_by_name_witness :
    identOf jailSpecFix = jailSpecFix.name ∧
    start jailSpecFix ⟨worldFix, []⟩ =
      (.ok (), ⟨startServer worldFix jailSpecFix,
        [] ++ [startCmd jailSpecFix.name]⟩) ∧
    stop jailSpecFix ⟨worldFix, []⟩ =
      (.ok (), ⟨stopServer worldFix jailSpecFix,
        [] ++ [stopCmd jailSpecFix.name]⟩) ∧
    destroy jailSpecFix ⟨worldFix, []⟩ =
      (.ok (), ⟨destroyServer worldFix jailSpecFix,
        [] ++ [destroyCmd jailSpecFix.name]⟩) ∧
    exists_ jailSpecFix ⟨worldFix, []⟩ =
      (.ok ((worldFix.jails.map rowOf).any fun line =>
          decide (line.name = jailSpecFix.name)),
        ⟨worldFix, [] ++ [listCmd]⟩) ∧
    ∀ ps, ∀ c ∈ spTrace worldFix jailSpecFix ps,
      (∃ kv : Str × Str, c = getCmd kv.1 jailSpecFix.name) ∨
      (∃ kv : Str × Str, c = setCmd kv.1 kv.2 jailSpecFix.name) :=
  addressed_by_name jailSpecFix (by decide) rfl worldFix []
    (wfWorld_single rfl (by unfold wfRec cleanField; decide))

/-- A `started` spec for an absent jail whose desired property value
carries trailing whitespace. -/
def paramsPad : Params :=
  { zpool := [], name := str "test", uuid := [],
    release := str "12.0-RELEASE", template := [], empty := false,
    state := str "started", properties := some [(str "notes", str "x ")] }

/-- C5: counterexample to the unamended claim. With the desired value
`x ` (trailing space) the stored value always differs from its stripped
readback, so after create, set, start the restart block fires stop,
set, start again: a set command and a stop/start cycle follow the first
start, refuting that the sequence is exactly create then start with
sets only in between. -/
theorem absent_started_counterexample :
    ∃ r s', run_module paramsPad { changed := false, message := [], attrs := none }
        ⟨worldEmpty, []⟩ = (.ok r, s') ∧
      containerActions s'.trace =
        [createCmd (mkJail paramsPad),
         setCmd (str "notes") (str "x ") (str "test"),
         startCmd (str "test"),
         stopCmd (str "test"),
         setCmd (str "notes") (str "x ") (str "test"),
         startCmd (str "test")] ∧
      pyStrip (str "x ") ≠ str "x " := by
  refine ⟨_, _, rfl, by decide, by decide⟩

end Iocage
